import Mathlib

/-!
Verification development for the shiftopt v1 scheduling core.

This file gives a shallow embedding, in Lean 4, of the parts of the
`shiftopt` Python package that the specification talks about:

* `time_index.py` — calendar arithmetic (`date.toordinal`-style proleptic
  Gregorian ordinals), `TimeIndex.day_bucket_from_dt`, `week_of_day`,
  `weeks`, `iter_day_buckets`;
* `model.py` — `_hhmm_to_bucket`, `_template_covers_bucket`, demand
  aggregation over forecast rows, priority-weight resolution, the
  eligibility filter, the construction of the MILP constraints (as
  structured linear constraints over a variable alphabet), and the
  solution-extraction layer (allocation list and coverage table).

Python floats are modelled as `ℚ`; Python ints as `Nat` (all the integer
quantities involved — bucket counts, day indices, agent counts — are
non-negative in the data model, and date differences use `Int`).
Python dictionaries keyed by tuples are modelled as total functions
updated pointwise (reads in the source use `.get` with the same defaults)
or as first-match lookups over the input lists; this matches the source
under the data-model invariant that ids are unique.
Python exceptions are modelled with `Except`: a raised error aborts the
run with no partial result, exactly as an early `Except.error` does.
-/

namespace Shiftopt

/-! ## Calendar arithmetic (Python `datetime.date.toordinal`) -/

/-- Proleptic Gregorian leap-year test, as in Python `datetime`. -/
def isLeap (y : Nat) : Bool :=
  y % 4 = 0 && (y % 100 != 0 || y % 400 = 0)

/-- Number of days in month `m` of year `y` (1-based month). -/
def daysInMonth (y m : Nat) : Nat :=
  if m = 2 then (if isLeap y then 29 else 28)
  else if m = 4 ∨ m = 6 ∨ m = 9 ∨ m = 11 then 30
  else 31

/-- Days in year `y` strictly before month `m`. -/
def daysBeforeMonth (y m : Nat) : Nat :=
  ((List.range (m - 1)).map (fun i => daysInMonth y (i + 1))).sum

/-- Days before January 1st of year `y` in the proleptic Gregorian calendar. -/
def daysBeforeYear (y : Nat) : Nat :=
  365 * (y - 1) + (y - 1) / 4 - (y - 1) / 100 + (y - 1) / 400

structure DateOnly where
  year : Nat
  month : Nat
  day : Nat
deriving DecidableEq, Repr

/-- `date.toordinal()`: day 1 is 0001-01-01. -/
def DateOnly.toordinal (d : DateOnly) : Nat :=
  daysBeforeYear d.year + daysBeforeMonth d.year d.month + d.day

/-- A parsed forecast timestamp (`datetime` value).  The string parsing of
`parse_forecast_timestamp` ('DD-MON-YYYY HH24:MI:SS') is pure format
decoding and is not modelled; rows carry the decoded value.  The
`datetime` invariants `hour < 24`, `minute < 60` appear as hypotheses
where they matter. -/
structure DateTime where
  year : Nat
  month : Nat
  day : Nat
  hour : Nat
  minute : Nat
  second : Nat
deriving DecidableEq, Repr

def DateTime.dateOf (dt : DateTime) : DateOnly :=
  ⟨dt.year, dt.month, dt.day⟩

/-- Python `date.weekday()`-style day-of-week keys, Monday = index 0. -/
def dowNames : List String :=
  ["mon", "tue", "wed", "thu", "fri", "sat", "sun"]

/-- Day-of-week key of the day `day_idx` days after the date with ordinal
`startOrd` (mirrors `day_dow` in `build_and_solve`: `weekday()` of
`start_date + day_idx`). -/
def dowOf (startOrd day_idx : Nat) : String :=
  dowNames.getD ((startOrd + day_idx - 1) % 7) ""

/-- Ordinal of the Monday opening the ISO calendar week that contains the
day with ordinal `o` (ISO weeks run Monday through Sunday).  Used only to
state what "ISO-week-aligned" would mean for the weekly blocks. -/
def isoWeekMonday (o : Nat) : Nat :=
  o - (o - 1) % 7

/-! ## TimeIndex (`time_index.py`) -/

structure TimeIndex where
  start_date : DateOnly
  days : Nat
  bucket_minutes : Nat
deriving DecidableEq, Repr

/-- `int(24 * 60 / bucket_minutes)`. -/
def TimeIndex.buckets_per_day (ti : TimeIndex) : Nat :=
  1440 / ti.bucket_minutes

inductive TimeErr
  | outOfHorizon
  | misaligned
  | bucketRange
deriving DecidableEq, Repr

/-- Signed day offset of `dt`'s date from the horizon start
(`(dt.date() - self.start_date).days`). -/
def TimeIndex.dayDiff (ti : TimeIndex) (dt : DateTime) : Int :=
  (dt.dateOf.toordinal : Int) - (ti.start_date.toordinal : Int)

/-- The date of `dt` lies outside `[start_date, start_date + days)`. -/
abbrev TimeIndex.outsideHorizon (ti : TimeIndex) (dt : DateTime) : Prop :=
  ti.dayDiff dt < 0 ∨ (ti.days : Int) ≤ ti.dayDiff dt

/-- The minute-of-day of `dt` is not a multiple of `bucket_minutes`. -/
abbrev TimeIndex.misalignedAt (ti : TimeIndex) (dt : DateTime) : Prop :=
  (dt.hour * 60 + dt.minute) % ti.bucket_minutes ≠ 0

/-- `TimeIndex.day_bucket_from_dt`: resolve a timestamp to a
`(day_index, bucket_index)` slot, with the three `ValueError` branches of
the source in order. -/
def TimeIndex.day_bucket_from_dt (ti : TimeIndex) (dt : DateTime) :
    Except TimeErr (Nat × Nat) :=
  let day_idx := ti.dayDiff dt
  if day_idx < 0 ∨ (ti.days : Int) ≤ day_idx then .error .outOfHorizon
  else
    let minute_of_day := dt.hour * 60 + dt.minute
    if minute_of_day % ti.bucket_minutes ≠ 0 then .error .misaligned
    else
      let bucket_idx := minute_of_day / ti.bucket_minutes
      if ti.buckets_per_day ≤ bucket_idx then .error .bucketRange
      else .ok (day_idx.toNat, bucket_idx)

/-- `week_of_day`: 0-based blocks of 7 days aligned to `start_date`. -/
def TimeIndex.week_of_day (_ti : TimeIndex) (day_idx : Nat) : Nat :=
  day_idx / 7

/-- `weeks`: `range((days + 6) // 7)`. -/
def TimeIndex.weeks (ti : TimeIndex) : List Nat :=
  List.range ((ti.days + 6) / 7)

/-- `iter_day_buckets`: all `(day, bucket)` slots in horizon order. -/
def TimeIndex.iter_day_buckets (ti : TimeIndex) : List (Nat × Nat) :=
  (List.range ti.days).flatMap
    (fun d => (List.range ti.buckets_per_day).map (fun b => (d, b)))

/-! ## Shift templates and coverage precomputation (`model.py`) -/

/-- `_hhmm_to_bucket` on an already-split `"HH:MM"` string. -/
def hhmmToBucket (hh mm bucket_minutes : Nat) : Nat :=
  (hh * 60 + mm) / bucket_minutes

/-- A shift template.  `start_time_local` is carried pre-split into
hours/minutes; `duration_minutes` and `bucket_work_pattern` are optional
fields of the input record, as in the JSON payload. -/
structure ShiftTemplate where
  id : String
  start_hh : Nat
  start_mm : Nat
  duration_minutes : Option Nat
  bucket_work_pattern : Option (List Nat)
deriving DecidableEq, Repr

inductive BuildErr
  | timeErr (e : TimeErr)
  | inconsistentStream
  | missingDuration
  | missingGroup
deriving DecidableEq, Repr

/-- `_template_covers_bucket`: the `(day_offset, bucket_in_day)` pairs a
template covers relative to its assigned day.  A `KeyError` on the
missing `duration_minutes` field (pattern absent and duration absent) is
the `missingDuration` error. -/
def template_covers_bucket (t : ShiftTemplate)
    (bucket_minutes buckets_per_day : Nat) :
    Except BuildErr (List (Nat × Nat)) :=
  let start := hhmmToBucket t.start_hh t.start_mm bucket_minutes
  match t.bucket_work_pattern with
  | some pattern =>
      .ok ((pattern.enum.filter (fun p => p.2 = 1)).map
        (fun p => ((start + p.1) / buckets_per_day, (start + p.1) % buckets_per_day)))
  | none =>
      match t.duration_minutes with
      | none => .error .missingDuration
      | some dur_min =>
          .ok ((List.range (dur_min / bucket_minutes)).map
            (fun off => ((start + off) / buckets_per_day, (start + off) % buckets_per_day)))

/-! ## Priority windows and weight resolution (`build_and_solve`, weights) -/

/-- One `(stream, rank, weight?)` entry of a priority window. -/
structure PriorityEntry where
  direction : String
  channel : String
  rank : Nat
  understaff_weight : Option ℚ
deriving DecidableEq, Repr

/-- A priority rule window; `start_time_local` / `end_time_local` carried
pre-split into hours/minutes. -/
structure PriorityWindow where
  start_hh : Nat
  start_mm : Nat
  end_hh : Nat
  end_mm : Nat
  applies_to_days : List String
  priorities : List PriorityEntry
deriving DecidableEq, Repr

/-- The fixed default ladder `{1: 100, 2: 10, 3: 1, 4: 0.3, 5: 0.1}` with
fallback `0.05` (`rank_default.get(rank, 0.05)`). -/
def rank_default (rank : Nat) : ℚ :=
  if rank = 1 then 100
  else if rank = 2 then 10
  else if rank = 3 then 1
  else if rank = 4 then 3 / 10
  else if rank = 5 then 1 / 10
  else 1 / 20

/-- `float(p.get("understaff_weight", rank_default.get(rank, 0.05)))`. -/
def entryWeight (p : PriorityEntry) : ℚ :=
  p.understaff_weight.getD (rank_default p.rank)

/-- The window's day-of-week filter admits `dow`
(`if days_filter and day_dow[day_idx] not in days_filter: continue`). -/
def windowAppliesOn (w : PriorityWindow) (dow : String) : Bool :=
  w.applies_to_days.isEmpty || w.applies_to_days.contains dow

/-- Key of the weights dictionary: `(day_idx, bucket, direction, channel)`. -/
abbrev WKey := Nat × Nat × String × String

/-- The sequence of `weights[key] = max(weights.get(key, 1.0), wgt)`
updates one window performs, in loop order (days, then buckets
`range(start_b, min(end_b, buckets_per_day))`, then entries). -/
def windowUpdates (ti : TimeIndex) (w : PriorityWindow) : List (WKey × ℚ) :=
  let start_b := hhmmToBucket w.start_hh w.start_mm ti.bucket_minutes
  let end_b := hhmmToBucket w.end_hh w.end_mm ti.bucket_minutes
  ((List.range ti.days).filter
      (fun d => windowAppliesOn w (dowOf ti.start_date.toordinal d))).flatMap
    (fun d =>
      ((List.range (min end_b ti.buckets_per_day)).filter
          (fun b => start_b ≤ b)).flatMap
        (fun b => w.priorities.map
          (fun p => (((d, b, p.direction, p.channel) : WKey), entryWeight p))))

/-- One max-merge dictionary write. -/
def updMax (f : WKey → ℚ) (kv : WKey × ℚ) : WKey → ℚ :=
  fun k => if k = kv.1 then max (f kv.1) kv.2 else f k

/-- Apply one priority window to the weights table. -/
def applyWindow (ti : TimeIndex) (f : WKey → ℚ) (w : PriorityWindow) : WKey → ℚ :=
  (windowUpdates ti w).foldl updMax f

/-- The resolved weights table: every key starts at the baseline `1.0`
(the source initialises horizon × known-stream keys to `1.0` and reads
all other keys with `.get(key, 1.0)`, so the table is observationally the
constant-1 function before the windows run), then the windows are applied
in input order. -/
def resolvedWeights (ti : TimeIndex) (rules : List PriorityWindow) : WKey → ℚ :=
  rules.foldl (applyWindow ti) (fun _ => 1)

/-- The weights written to key `k` by a list of max-merge updates, in
order. -/
def hitsAt (k : WKey) (us : List (WKey × ℚ)) : List ℚ :=
  us.filterMap (fun kv => if kv.1 = k then some kv.2 else none)

/-- The resolved weight as §4.3 of the spec words it: the maximum of the
baseline `1.0` and, over every priority window whose day-of-week filter
matches the slot's day and whose bucket range `[start_bucket, end_bucket)`
clipped to `[0, buckets_per_day)` contains the slot's bucket, each
matching entry's declared weight or rank default. -/
def specWeight (ti : TimeIndex) (rules : List PriorityWindow)
    (d b : Nat) (direction channel : String) : ℚ :=
  (rules.flatMap (fun w =>
    if (w.applies_to_days = [] ∨ dowOf ti.start_date.toordinal d ∈ w.applies_to_days)
        ∧ hhmmToBucket w.start_hh w.start_mm ti.bucket_minutes ≤ b
        ∧ b < hhmmToBucket w.end_hh w.end_mm ti.bucket_minutes
        ∧ b < ti.buckets_per_day
    then w.priorities.filterMap (fun p =>
      if p.direction = direction ∧ p.channel = channel then some (entryWeight p) else none)
    else [])).foldl max 1

/-! ## Forecast rows and demand aggregation (`build_and_solve`, demand) -/

abbrev Stream := String × String

/-- Key of the demand dictionary: `(day, bucket, skill_group_id)`. -/
abbrev DKey := Nat × Nat × String

structure ForecastRow where
  timestamp : DateTime
  skill_group_id : String
  direction : String
  channel : String
  agents : Nat
deriving DecidableEq, Repr

def streamOf (r : ForecastRow) : Stream :=
  (r.direction, r.channel)

/-- Running aggregation state: the demand dictionary and the inferred
`skill_group_id → (direction, channel)` mapping. -/
structure AggState where
  demand : DKey → Nat
  sg_stream : String → Option Stream

/-- Process one forecast row: resolve its slot (propagating `TimeIndex`
errors), check the stream mapping (`ValueError` on conflict =
`inconsistentStream`), record the mapping and add `agents` into the slot
bucket (`demand[key] = demand.get(key, 0) + int(r["agents"])`). -/
def aggStep (ti : TimeIndex) (st : AggState) (r : ForecastRow) :
    Except BuildErr AggState :=
  match ti.day_bucket_from_dt r.timestamp with
  | .error e => .error (.timeErr e)
  | .ok (d, b) =>
      let checked : Except BuildErr Unit :=
        match st.sg_stream r.skill_group_id with
        | some s => if s ≠ streamOf r then .error .inconsistentStream else .ok ()
        | none => .ok ()
      checked.map (fun _ =>
        { demand := fun k =>
            if k = (d, b, r.skill_group_id) then st.demand k + r.agents else st.demand k,
          sg_stream := fun sg =>
            if sg = r.skill_group_id then some (streamOf r) else st.sg_stream sg })

/-- Fold the aggregation over all forecast rows, starting from the empty
dictionaries. -/
def aggregate (ti : TimeIndex) (rows : List ForecastRow) : Except BuildErr AggState :=
  rows.foldlM (aggStep ti) ⟨fun _ => 0, fun _ => none⟩

/-- No skill group id occurs in the rows with two different streams. -/
def streamsConsistent (rows : List ForecastRow) : Prop :=
  ∀ r1 ∈ rows, ∀ r2 ∈ rows,
    r1.skill_group_id = r2.skill_group_id → streamOf r1 = streamOf r2

instance (rows : List ForecastRow) : Decidable (streamsConsistent rows) := by
  unfold streamsConsistent; infer_instance

instance {ε α : Type} [DecidableEq ε] [DecidableEq α] : DecidableEq (Except ε α) :=
  fun a b =>
    match a, b with
    | .ok x, .ok y =>
        if h : x = y then isTrue (by rw [h]) else isFalse (by intro hc; cases hc; exact h rfl)
    | .error x, .error y =>
        if h : x = y then isTrue (by rw [h]) else isFalse (by intro hc; cases hc; exact h rfl)
    | .ok _, .error _ => isFalse (by intro hc; cases hc)
    | .error _, .ok _ => isFalse (by intro hc; cases hc)

/-- The row resolves (successfully) to the given demand key. -/
def resolvesTo (ti : TimeIndex) (r : ForecastRow) (k : DKey) : Prop :=
  ti.day_bucket_from_dt r.timestamp = .ok (k.1, k.2.1) ∧ r.skill_group_id = k.2.2

instance (ti : TimeIndex) (r : ForecastRow) (k : DKey) :
    Decidable (resolvesTo ti r k) := by
  unfold resolvesTo; infer_instance

/-- Total `agents` of the rows that resolve to key `k`. -/
def demandSum (ti : TimeIndex) (rows : List ForecastRow) (k : DKey) : Nat :=
  ((rows.filter (fun r => decide (resolvesTo ti r k))).map (fun r => r.agents)).sum

/-! ## Input payload and eligibility filter -/

structure Employee where
  id : String
  employment_group_id : String
  skill_group_ids : List String
deriving DecidableEq, Repr

structure EmploymentGroup where
  id : String
  day_min : ℚ
  day_max : ℚ
  week_min : ℚ
  week_max : ℚ
deriving DecidableEq, Repr

/-- The input payload, restricted to the fields `build_and_solve` reads.
`skill_groups` carries the ids (`[sg["id"] for sg in data["skill_groups"]]`). -/
structure Input where
  start_date : DateOnly
  days : Nat
  bucket_minutes : Nat
  forecast : List ForecastRow
  priority_rules : List PriorityWindow
  operating_hours : List Stream
  employees : List Employee
  employment_groups : List EmploymentGroup
  shift_templates : List ShiftTemplate
  skill_groups : List String
deriving DecidableEq, Repr

def Input.ti (inp : Input) : TimeIndex :=
  ⟨inp.start_date, inp.days, inp.bucket_minutes⟩

/-- Python dict keys of `{t["id"]: t for t in data["shift_templates"]}`:
insertion order with later duplicates dropped. -/
def templateIds (inp : Input) : List String :=
  (inp.shift_templates.map (fun t => t.id)).eraseDups

def findTemplate (inp : Input) (tid : String) : Option ShiftTemplate :=
  inp.shift_templates.find? (fun t => t.id = tid)

def findGroup (inp : Input) (egid : String) : Option EmploymentGroup :=
  inp.employment_groups.find? (fun eg => eg.id = egid)

/-- The template records in dict iteration order (under the data-model
invariant that template ids are unique this is the source's
`templates.items()`). -/
def templatesList (inp : Input) : List ShiftTemplate :=
  (templateIds inp).filterMap (findTemplate inp)

/-- `1e-9`, the eligibility-filter epsilon. -/
def eps : ℚ := 1 / 1000000000

/-- `dur_hr >= min_day - 1e-9 and dur_hr <= max_day + 1e-9`. -/
def durationOk (eg : EmploymentGroup) (dur_min : Nat) : Bool :=
  let dur_hr : ℚ := (dur_min : ℚ) / 60
  decide (eg.day_min - eps ≤ dur_hr ∧ dur_hr ≤ eg.day_max + eps)

/-- `allowed.get((eg, tid), False)`: the eligibility filter as a total
lookup (missing group, missing template, or missing duration field give
no `allowed` entry, hence `False`). -/
def allowedFn (inp : Input) (egid tid : String) : Bool :=
  match findGroup inp egid, findTemplate inp tid with
  | some eg, some t =>
      match t.duration_minutes with
      | some d => durationOk eg d
      | none => false
  | _, _ => false

/-- Coverage span list of the template with id `tid` (empty when the id is
unknown; the builder's `covCheck` stage rules out the error case before
the model is assembled). -/
def covListOf (inp : Input) (tid : String) : List (Nat × Nat) :=
  match findTemplate inp tid with
  | none => []
  | some t =>
      match template_covers_bucket t inp.bucket_minutes inp.ti.buckets_per_day with
      | .ok l => l
      | .error _ => []

/-- Membership in the `cov` dictionary:
`cov.get((tid, day_off, b_in), 0) == 1`. -/
def covp (inp : Input) (tid : String) (day_off b_in : Nat) : Bool :=
  (covListOf inp tid).contains (day_off, b_in)

/-! ## The mixed-integer program as structured data -/

/-- The decision-variable alphabet: shift assignment `s_{emp}_d{day}_{tid}`,
allocation `z_{emp}_d{day}_b{b}_{sg}` and understaff slack `u_d{day}_b{b}_{sg}`. -/
inductive Var
  | sv (emp : String) (day : Nat) (tid : String)
  | zv (emp : String) (day : Nat) (b : Nat) (sg : String)
  | uv (day : Nat) (b : Nat) (sg : String)
deriving DecidableEq, Repr

structure LinTerm where
  coeff : ℚ
  var : Var
deriving DecidableEq, Repr

abbrev LinExpr := List LinTerm

inductive Sense
  | le
  | ge
deriving DecidableEq, Repr

structure Constr where
  lhs : LinExpr
  sense : Sense
  rhs : ℚ
deriving DecidableEq, Repr

def evalExpr (v : Var → ℚ) (e : LinExpr) : ℚ :=
  (e.map (fun t => t.coeff * v t.var)).sum

def satisfied (v : Var → ℚ) (c : Constr) : Prop :=
  match c.sense with
  | .le => evalExpr v c.lhs ≤ c.rhs
  | .ge => c.rhs ≤ evalExpr v c.lhs

instance (v : Var → ℚ) (c : Constr) : Decidable (satisfied v c) := by
  unfold satisfied; cases c.sense <;> exact inferInstance

/-- `max_day_off = 1` — the source's fixed wrap bound ("with 8h max, at
most wrap into next day"). -/
def max_day_off : Nat := 1

/-- The derived work expression `work[(emp, day, b)]`: for each
`day_off in range(max_day_off + 1)` with `src_day = day - day_off >= 0`,
every eligible template (those with an `s` variable) covering
`(day_off, b)` contributes its assignment variable on `src_day`. -/
def workExpr (inp : Input) (emp egid : String) (day b : Nat) : LinExpr :=
  (List.range (max_day_off + 1)).flatMap (fun day_off =>
    if day_off ≤ day then
      (templateIds inp).filterMap (fun tid =>
        if allowedFn inp egid tid ∧ covp inp tid day_off b then
          some ⟨1, Var.sv emp (day - day_off) tid⟩
        else none)
    else [])

/-- Constraint family 1, `one_shift_{emp}_d{day}`:
`Σ_t s[emp, day, t] ≤ 1`. -/
def oneShiftConstrs (inp : Input) : List Constr :=
  inp.employees.flatMap (fun e =>
    (List.range inp.days).map (fun day =>
      ⟨(templateIds inp).filterMap (fun tid =>
          if allowedFn inp e.employment_group_id tid then
            some ⟨1, Var.sv e.id day tid⟩
          else none),
        Sense.le, 1⟩))

/-- The weekly-hours left-hand side for employee `e` and week block `w`:
days `range(w*7, min(days, w*7+7))`, every template with an existing
assignment variable, coefficient `duration_minutes / 60`. -/
def weekLhs (inp : Input) (e : Employee) (w : Nat) : LinExpr :=
  (List.range' (7 * w) (min inp.days (7 * w + 7) - 7 * w)).flatMap (fun day =>
    (templatesList inp).filterMap (fun t =>
      if allowedFn inp e.employment_group_id t.id then
        some ⟨((t.duration_minutes.getD 0 : ℚ) / 60), Var.sv e.id day t.id⟩
      else none))

/-- Constraint family 2, `min_week_hours_* / max_week_hours_*`: both hard.
The `none` branch is unreachable once the builder's `groupsCheck` stage
has passed (it mirrors the `KeyError` of `employment_groups[eg]`). -/
def weeklyConstrs (inp : Input) : List Constr :=
  inp.employees.flatMap (fun e =>
    match findGroup inp e.employment_group_id with
    | none => []
    | some eg =>
        inp.ti.weeks.flatMap (fun w =>
          [⟨weekLhs inp e w, Sense.ge, eg.week_min⟩,
           ⟨weekLhs inp e w, Sense.le, eg.week_max⟩]))

/-- Constraint family 3, `alloc_le_work_{emp}_d{day}_b{b}`:
`Σ_{sg ∈ skills} z ≤ work` written as `Σ z − work ≤ 0`. -/
def allocWorkConstrs (inp : Input) : List Constr :=
  inp.employees.flatMap (fun e =>
    inp.ti.iter_day_buckets.map (fun db =>
      ⟨(e.skill_group_ids.map (fun sg => (⟨1, Var.zv e.id db.1 db.2 sg⟩ : LinTerm)))
          ++ ((workExpr inp e.id e.employment_group_id db.1 db.2).map
                (fun t => ⟨-t.coeff, t.var⟩)),
        Sense.le, 0⟩))

/-- The allocation sum `Σ_{e : sg ∈ e.skills} z[e, day, b, sg]` as a
linear expression (the `lhs` of the coverage constraints before the
slack variable is appended). -/
def allocSumExpr (inp : Input) (day b : Nat) (sg : String) : LinExpr :=
  inp.employees.filterMap (fun e =>
    if sg ∈ e.skill_group_ids then some ⟨1, Var.zv e.id day b sg⟩ else none)

/-- Constraint family 4, `cov_{sg}_d{day}_b{b}`:
`Σ_e z + u ≥ required`. -/
def covConstrOf (inp : Input) (demand : DKey → Nat) (day b : Nat) (sg : String) : Constr :=
  ⟨allocSumExpr inp day b sg ++ [⟨1, Var.uv day b sg⟩], Sense.ge,
    (demand (day, b, sg) : ℚ)⟩

/-- Constraint family 5, `no_over_alloc_{sg}_d{day}_b{b}`:
`lhs - u ≤ required`, i.e. the coverage lhs with the slack variable
subtracted again. -/
def noOverConstrOf (inp : Input) (demand : DKey → Nat) (day b : Nat) (sg : String) : Constr :=
  ⟨(allocSumExpr inp day b sg ++ [⟨1, Var.uv day b sg⟩]) ++ [⟨-1, Var.uv day b sg⟩],
    Sense.le, (demand (day, b, sg) : ℚ)⟩

/-- Families 4 and 5 for every slot and skill group (family 5 is guarded
by the source's `if req >= 0`, always true for the non-negative demand
counts). -/
def coverageConstrs (inp : Input) (demand : DKey → Nat) : List Constr :=
  inp.ti.iter_day_buckets.flatMap (fun db =>
    inp.skill_groups.flatMap (fun sg =>
      covConstrOf inp demand db.1 db.2 sg ::
        (if (0 : ℤ) ≤ (demand (db.1, db.2, sg) : ℤ) then
          [noOverConstrOf inp demand db.1 db.2 sg]
        else [])))

/-- Objective: `Σ weight[day, b, stream(sg)] · u[day, b, sg]`, weight `1.0`
for skill groups with no inferred stream. -/
def objectiveExpr (inp : Input) (sgs : String → Option Stream) : LinExpr :=
  inp.ti.iter_day_buckets.flatMap (fun db =>
    inp.skill_groups.map (fun sg =>
      let wgt : ℚ :=
        match sgs sg with
        | none => 1
        | some st => resolvedWeights inp.ti inp.priority_rules (db.1, db.2, st.1, st.2)
      ⟨wgt, Var.uv db.1 db.2 sg⟩))

/-! ## The builder pipeline -/

/-- The coverage precomputation loop over all templates
(`for tid, t in templates.items(): _template_covers_bucket(...)`); it
fails exactly when some template has neither a work pattern nor a
duration. -/
def covCheck (inp : Input) : Except BuildErr Unit :=
  inp.shift_templates.foldlM (fun _ t =>
    (template_covers_bucket t inp.bucket_minutes inp.ti.buckets_per_day).map
      (fun _ => ())) ()

/-- The eligibility-filter loop (`for eg ...: for tid, t ...:
float(t["duration_minutes"])`); with at least one employment group it
reads every template's `duration_minutes` field and raises `KeyError`
(= `missingDuration`) on the first template lacking it. -/
def allowedCheck (inp : Input) : Except BuildErr Unit :=
  inp.employment_groups.foldlM (fun _ _eg =>
    inp.shift_templates.foldlM (fun _ t =>
      match t.duration_minutes with
      | none => Except.error BuildErr.missingDuration
      | some _ => Except.ok ()) ()) ()

/-- The `employment_groups[eg]` lookups of the weekly-constraint loop:
`KeyError` (= `missingGroup`) on the first employee whose employment
group id is not declared. -/
def groupsCheck (inp : Input) : Except BuildErr Unit :=
  inp.employees.foldlM (fun _ e =>
    match findGroup inp e.employment_group_id with
    | none => Except.error BuildErr.missingGroup
    | some _ => Except.ok ()) ()

/-- The built model: the constraint list in source emission order plus the
data the extraction layer reads back. -/
structure Model where
  constraints : List Constr
  demand : DKey → Nat
  sg_stream : String → Option Stream
  objective : LinExpr

/-- `build_and_solve` up to (but not including) the solver call: demand
aggregation, coverage precomputation, eligibility filter and constraint
assembly, failing in source order on the errors each stage can raise. -/
def buildModel (inp : Input) : Except BuildErr Model := do
  let st ← aggregate inp.ti inp.forecast
  let _ ← covCheck inp
  let _ ← allowedCheck inp
  let _ ← groupsCheck inp
  return { constraints :=
             oneShiftConstrs inp ++ weeklyConstrs inp ++ allocWorkConstrs inp
               ++ coverageConstrs inp st.demand,
           demand := st.demand,
           sg_stream := st.sg_stream,
           objective := objectiveExpr inp st.sg_stream }

/-! ## Solution extraction -/

/-- A row of the sparse employee allocation list. -/
structure AllocEntry where
  employee_id : String
  day_index : Nat
  bucket_index : Nat
  skill_group_id : String
  work : Nat
deriving DecidableEq, Repr

/-- The sparse allocation list: for each employee, each of their skill
groups and each slot, one entry with `work = 1` when the binary variable's
value passes the `>= 0.5` threshold. -/
def allocationList (inp : Input) (v : Var → ℚ) : List AllocEntry :=
  inp.employees.flatMap (fun e =>
    e.skill_group_ids.flatMap (fun sg =>
      inp.ti.iter_day_buckets.filterMap (fun db =>
        if (1 : ℚ) / 2 ≤ v (Var.zv e.id db.1 db.2 sg) then
          some ⟨e.id, db.1, db.2, sg, 1⟩
        else none)))

/-- Re-aggregate the allocation list: sum the `work` fields of the entries
that fall on the given slot and skill group. -/
def reAggAlloc (l : List AllocEntry) (day b : Nat) (sg : String) : Nat :=
  ((l.filter (fun a =>
      a.day_index = day ∧ a.bucket_index = b ∧ a.skill_group_id = sg)).map
    (fun a => a.work)).sum

/-- The `allocated` field of a coverage row: the raw solver values of the
relevant allocation variables, summed (`allocated += float(z[...].value())`,
no thresholding). -/
def allocatedAt (inp : Input) (v : Var → ℚ) (day b : Nat) (sg : String) : ℚ :=
  (inp.employees.map (fun e =>
    if sg ∈ e.skill_group_ids then v (Var.zv e.id day b sg) else 0)).sum

structure CoverageRow where
  day_index : Nat
  bucket_index : Nat
  skill_group_id : String
  direction : String
  channel : String
  required : Nat
  allocated : ℚ
  understaff : ℚ
  weight : ℚ
deriving DecidableEq, Repr

/-- The dense coverage table (one row per slot and skill group, including
zeros), with the stream denormalised from the inferred mapping
(`sg_stream.get(sg, ("", ""))`) and the weight defaulting to `1.0` for a
falsy direction, as in the source. -/
def coverageRows (inp : Input) (m : Model) (v : Var → ℚ) : List CoverageRow :=
  inp.ti.iter_day_buckets.flatMap (fun db =>
    inp.skill_groups.map (fun sg =>
      { day_index := db.1, bucket_index := db.2, skill_group_id := sg,
        direction := ((m.sg_stream sg).getD ("", "")).1,
        channel := ((m.sg_stream sg).getD ("", "")).2,
        required := m.demand (db.1, db.2, sg),
        allocated := allocatedAt inp v db.1 db.2 sg,
        understaff := v (Var.uv db.1 db.2 sg),
        weight :=
          if ((m.sg_stream sg).getD ("", "")).1 = "" then 1
          else resolvedWeights inp.ti inp.priority_rules
            (db.1, db.2, ((m.sg_stream sg).getD ("", "")).1,
              ((m.sg_stream sg).getD ("", "")).2) }))

/-- The binary/continuous variable domains the solver contract guarantees:
assignment and allocation variables are binary, slack variables are
non-negative. -/
def domainsOk (inp : Input) (v : Var → ℚ) : Prop :=
  (∀ e ∈ inp.employees, ∀ day < inp.days, ∀ tid ∈ templateIds inp,
      v (Var.sv e.id day tid) = 0 ∨ v (Var.sv e.id day tid) = 1) ∧
  (∀ e ∈ inp.employees, ∀ sg ∈ e.skill_group_ids,
      ∀ day < inp.days, ∀ b < inp.ti.buckets_per_day,
      v (Var.zv e.id day b sg) = 0 ∨ v (Var.zv e.id day b sg) = 1) ∧
  (∀ day < inp.days, ∀ b < inp.ti.buckets_per_day, ∀ sg ∈ inp.skill_groups,
      0 ≤ v (Var.uv day b sg))

instance (inp : Input) (v : Var → ℚ) : Decidable (domainsOk inp v) := by
  unfold domainsOk; infer_instance

/-! ## The work expression as the spec words it -/

/-- The value of `work[e, slot]` as §4.6 of the spec words it: the sum of
`assign[e, d', t]` over ALL pairs `(t, day_offset)` such that
`d' = slot.day − day_offset ≥ 0` and `(day_offset, slot.bucket)` lies in
the coverage set of `t` — with no bound on `day_offset` beyond the
coverage set itself.  (`assign` variables exist only for eligible
templates, hence the `allowedFn` guard.) -/
def specWorkFull (inp : Input) (v : Var → ℚ) (emp egid : String) (day b : Nat) : ℚ :=
  ((templateIds inp).map (fun tid =>
    (((covListOf inp tid).dedup).map (fun p =>
      if allowedFn inp egid tid ∧ p.2 = b ∧ p.1 ≤ day then
        v (Var.sv emp (day - p.1) tid)
      else 0)).sum)).sum

/-- The same sum with the quantification over `day_offset` additionally
clamped to `day_offset ≤ max_day_off = 1`, which is what the source
builds. -/
def specWorkClamped (inp : Input) (v : Var → ℚ) (emp egid : String) (day b : Nat) : ℚ :=
  ((templateIds inp).map (fun tid =>
    (((covListOf inp tid).dedup).map (fun p =>
      if allowedFn inp egid tid ∧ p.2 = b ∧ p.1 ≤ day ∧ p.1 ≤ max_day_off then
        v (Var.sv emp (day - p.1) tid)
      else 0)).sum)).sum

/-! ## Concrete instances used by counterexamples and witnesses -/

/-- Fallback model for the total match-extraction of a built model. -/
def defaultModel : Model :=
  ⟨[], fun _ => 0, fun _ => none, []⟩

def egStd : EmploymentGroup :=
  ⟨"g1", 0, 24, 0, 168⟩

def empStd : Employee :=
  ⟨"e1", "g1", ["s1"]⟩

/-- A 24-hour template (eligible for `egStd`) whose work pattern reaches
`day_offset = 2` on a 2-buckets-per-day grid: with 720-minute buckets and
start `00:00`, the flagged offsets `0` and `4` cover `(0, 0)` and `(2, 0)`. -/
def tplWrap2 : ShiftTemplate :=
  ⟨"t1", 0, 0, some 1440, some [1, 0, 0, 0, 1]⟩

/-- A plain 24-hour duration template on the 720-minute grid. -/
def tplDay : ShiftTemplate :=
  ⟨"t1", 0, 0, some 1440, none⟩

/-- C1 counterexample input: 3 days of 720-minute buckets, one employee,
one eligible pattern template wrapping two midnights. -/
def cinpC1 : Input :=
  { start_date := ⟨2026, 1, 5⟩, days := 3, bucket_minutes := 720,
    forecast := [], priority_rules := [], operating_hours := [],
    employees := [empStd], employment_groups := [egStd],
    shift_templates := [tplWrap2], skill_groups := ["s1"] }

/-- Valuation assigning the wrapping template on day 0 and nothing else. -/
def vC1 : Var → ℚ :=
  fun x => if x = Var.sv "e1" 0 "t1" then 1 else 0

/-- C2 input: horizon of 14 days starting Thursday 2026-01-01. -/
def cinpC2 : Input :=
  { start_date := ⟨2026, 1, 1⟩, days := 14, bucket_minutes := 720,
    forecast := [], priority_rules := [], operating_hours := [],
    employees := [empStd], employment_groups := [egStd],
    shift_templates := [tplDay], skill_groups := ["s1"] }

def mC2 : Model :=
  match buildModel cinpC2 with
  | .ok m => m
  | .error _ => defaultModel

/-- C3 input: one day of two 720-minute buckets, one employee with one
skill. -/
def cinpC3 : Input :=
  { start_date := ⟨2026, 1, 5⟩, days := 1, bucket_minutes := 720,
    forecast := [], priority_rules := [], operating_hours := [],
    employees := [empStd], employment_groups := [egStd],
    shift_templates := [tplDay], skill_groups := ["s1"] }

def mC3 : Model :=
  match buildModel cinpC3 with
  | .ok m => m
  | .error _ => defaultModel

/-- A non-integral solver value for one allocation variable (the kind of
tolerance value the `0.5` threshold exists to absorb). -/
def vC3 : Var → ℚ :=
  fun x => if x = Var.zv "e1" 0 0 "s1" then 7 / 10 else 0

/-- An exactly-binary valuation for the same variable. -/
def vC3W : Var → ℚ :=
  fun x => if x = Var.zv "e1" 0 0 "s1" then 1 else 0

/-- The coverage row of `cinpC3` at slot `(0,0)`, skill `"s1"`, under
`vC3W` (no forecast, so no inferred stream and baseline weight). -/
def rowC3W : CoverageRow :=
  ⟨0, 0, "s1", "", "", 0, 1, 0, 1⟩

def tiC4 : TimeIndex :=
  ⟨⟨2026, 1, 5⟩, 1, 720⟩

/-- All-day window giving `(inbound, voice)` rank 2 (default weight 10). -/
def winA : PriorityWindow :=
  ⟨0, 0, 24, 0, [], [⟨"inbound", "voice", 2, none⟩]⟩

/-- All-day window giving `(inbound, voice)` declared weight 25. -/
def winB : PriorityWindow :=
  ⟨0, 0, 24, 0, [], [⟨"inbound", "voice", 2, some 25⟩]⟩

def tC6 : ShiftTemplate :=
  ⟨"t6", 9, 0, some 480, none⟩

def lC6 : List (Nat × Nat) :=
  (List.range 16).map (fun off => (0, 18 + off))

/-- C7 input: one forecast row demanding one agent in the first bucket. -/
def cinpC7 : Input :=
  { start_date := ⟨2026, 1, 5⟩, days := 1, bucket_minutes := 720,
    forecast := [⟨⟨2026, 1, 5, 0, 0, 0⟩, "s1", "inbound", "voice", 1⟩],
    priority_rules := [], operating_hours := [],
    employees := [empStd], employment_groups := [egStd],
    shift_templates := [tplDay], skill_groups := ["s1"] }

def mC7 : Model :=
  match buildModel cinpC7 with
  | .ok m => m
  | .error _ => defaultModel

/-- Valuation leaving everyone unassigned and absorbing the demand with
the slack variable. -/
def vC7 : Var → ℚ :=
  fun x => if x = Var.uv 0 0 "s1" then 1 else 0

/-- The coverage row of `cinpC7` at slot `(0, 0)`, skill `"s1"`, under
`vC7`: one agent demanded, none allocated, one unit of slack. -/
def rowC7 : CoverageRow :=
  ⟨0, 0, "s1", "inbound", "voice", 1, 0, 1, 1⟩

def tiC8 : TimeIndex :=
  ⟨⟨2026, 1, 5⟩, 1, 720⟩

/-- Two forecast rows landing on the same slot and skill group. -/
def rowsC8 : List ForecastRow :=
  [⟨⟨2026, 1, 5, 0, 0, 0⟩, "s1", "inbound", "voice", 2⟩,
   ⟨⟨2026, 1, 5, 0, 0, 0⟩, "s1", "inbound", "voice", 3⟩]

def tiC9 : TimeIndex :=
  ⟨⟨2026, 1, 1⟩, 7, 30⟩

/-- A timestamp at `:15` past the hour on the 30-minute grid. -/
def dtC9 : DateTime :=
  ⟨2026, 1, 1, 10, 15, 0⟩

/-- A pattern-only template (no `duration_minutes`). -/
def tplPatternOnly : ShiftTemplate :=
  ⟨"tp", 0, 0, none, some [1]⟩

/-- C10 counterexample input: a pattern-only template but no employment
groups and no employees, so neither duration read is ever reached. -/
def cinpC10 : Input :=
  { start_date := ⟨2026, 1, 5⟩, days := 1, bucket_minutes := 720,
    forecast := [], priority_rules := [], operating_hours := [],
    employees := [], employment_groups := [],
    shift_templates := [tplPatternOnly], skill_groups := [] }

/-- C10 witness input: the same template with one employment group
declared. -/
def cinpC10w : Input :=
  { start_date := ⟨2026, 1, 5⟩, days := 1, bucket_minutes := 720,
    forecast := [], priority_rules := [], operating_hours := [],
    employees := [], employment_groups := [egStd],
    shift_templates := [tplPatternOnly], skill_groups := [] }

/-! ## Helper lemmas: list sums -/

theorem sum_map_add {α : Type} {M : Type} [AddCommMonoid M]
    (l : List α) (f g : α → M) :
    (l.map (fun x => f x + g x)).sum = (l.map f).sum + (l.map g).sum := by
  induction l with
  | nil => simp
  | cons a t ih =>
      simp only [List.map_cons, List.sum_cons, ih]
      abel

theorem sum_map_flatMap {α β : Type} {M : Type} [AddCommMonoid M]
    (l : List α) (g : α → List β) (f : β → M) :
    (((l.flatMap g).map f)).sum = (l.map (fun x => ((g x).map f).sum)).sum := by
  induction l with
  | nil => simp
  | cons a t ih => simp [List.flatMap_cons, ih]

theorem filter_flatMap {α β : Type} (l : List α) (g : α → List β) (p : β → Bool) :
    (l.flatMap g).filter p = l.flatMap (fun x => (g x).filter p) := by
  induction l with
  | nil => simp
  | cons a t ih => simp [List.flatMap_cons, List.filter_append, ih]

theorem filterMap_flatMap {α β γ : Type} (l : List α) (g : α → List β) (h : β → Option γ) :
    (l.flatMap g).filterMap h = l.flatMap (fun x => (g x).filterMap h) := by
  induction l with
  | nil => simp
  | cons a t ih => simp [List.flatMap_cons, List.filterMap_append, ih]

theorem flatMap_congr {α β : Type} {l : List α} {g h : α → List β}
    (hgh : ∀ x ∈ l, g x = h x) : l.flatMap g = l.flatMap h := by
  induction l with
  | nil => simp
  | cons a t ih =>
      simp only [List.flatMap_cons]
      rw [hgh a (by simp), ih (fun x hx => hgh x (by simp [hx]))]

/-- A `flatMap` whose only possibly-nonempty fibre is at `a` collapses to
that fibre when the index list has no duplicates. -/
theorem flatMap_ite_single {α β : Type} [DecidableEq α]
    {l : List α} (hl : l.Nodup) (a : α) (A : List β) (g : α → List β)
    (hg : ∀ x ∈ l, g x = if x = a then A else []) :
    l.flatMap g = if a ∈ l then A else [] := by
  induction l with
  | nil => simp
  | cons x t ih =>
      have hx := hg x (by simp)
      have ht : ∀ y ∈ t, g y = if y = a then A else [] :=
        fun y hy => hg y (by simp [hy])
      have hnd := hl.of_cons
      by_cases hxa : x = a
      · subst hxa
        have hnotmem : x ∉ t := (List.nodup_cons.mp hl).1
        have : t.flatMap g = if x ∈ t then A else [] := ih hnd ht
        simp [List.flatMap_cons, hx, this, hnotmem]
      · have : t.flatMap g = if a ∈ t then A else [] := ih hnd ht
        simp only [List.flatMap_cons, hx, if_neg hxa, List.nil_append, this]
        have hax : ¬ a = x := fun h => hxa h.symm
        by_cases hat : a ∈ t
        · simp [hat, List.mem_cons]
        · simp [hat, List.mem_cons, hax]

/-- Summing an indicator-style map over a duplicate-free list collapses to
the value at the (at most one) member equal to `a`. -/
theorem sum_map_ite_eq_mem {α : Type} {M : Type} [AddCommMonoid M] [DecidableEq α]
    {l : List α} (hl : l.Nodup) (a : α) (c : α → M) :
    (l.map (fun x => if x = a then c x else 0)).sum = if a ∈ l then c a else 0 := by
  induction l with
  | nil => simp
  | cons x t ih =>
      have hnd := hl.of_cons
      by_cases hxa : x = a
      · subst hxa
        have hnotmem : x ∉ t := (List.nodup_cons.mp hl).1
        have hzero : (t.map (fun y => if y = x then c y else 0)).sum = 0 := by
          rw [ih hnd]
          simp [hnotmem]
        simp [hzero]
      · rw [List.map_cons, List.sum_cons, if_neg hxa, ih hnd]
        have hax : ¬ a = x := fun h => hxa h.symm
        by_cases hat : a ∈ t
        · simp [hat, List.mem_cons]
        · simp [hat, List.mem_cons, hax]

theorem evalExpr_append (v : Var → ℚ) (a b : LinExpr) :
    evalExpr v (a ++ b) = evalExpr v a + evalExpr v b := by
  simp [evalExpr]

theorem evalExpr_filterMap_one {α : Type} (v : Var → ℚ) (l : List α)
    (P : α → Prop) [DecidablePred P] (g : α → Var) :
    evalExpr v (l.filterMap (fun x => if P x then some ⟨1, g x⟩ else none))
      = (l.map (fun x => if P x then v (g x) else 0)).sum := by
  induction l with
  | nil => simp [evalExpr]
  | cons a t ih =>
      by_cases h : P a
      · simp only [List.filterMap_cons, if_pos h]
        simp only [evalExpr, List.map_cons, List.sum_cons] at *
        rw [ih]
        simp [h]
      · simp only [List.filterMap_cons, if_neg h]
        rw [ih]
        simp [h]

/-! ## Helper lemmas: folded maxima and the weights table -/

theorem foldl_max_init_le {l : List ℚ} {a : ℚ} : a ≤ l.foldl max a := by
  induction l generalizing a with
  | nil => simp
  | cons x t ih => exact le_trans (le_max_left a x) ih

theorem foldl_max_mem_le {l : List ℚ} {a x : ℚ} (hx : x ∈ l) : x ≤ l.foldl max a := by
  induction l generalizing a with
  | nil => cases hx
  | cons y t ih =>
      rcases List.mem_cons.mp hx with h | h
      · subst h
        exact le_trans (le_max_right a x) foldl_max_init_le
      · exact ih h

theorem foldl_max_fixed {l : List ℚ} {a : ℚ} (h : ∀ x ∈ l, x ≤ a) :
    l.foldl max a = a := by
  induction l with
  | nil => rfl
  | cons x t ih =>
      have hxa : x ≤ a := h x (by simp)
      simp only [List.foldl_cons, max_eq_left hxa]
      exact ih (fun y hy => h y (by simp [hy]))

theorem foldl_max_self_absorb (a : ℚ) (U : List ℚ) :
    U.foldl max (U.foldl max a) = U.foldl max a :=
  foldl_max_fixed (fun _ hx => foldl_max_mem_le hx)

theorem foldl_max_perm {l l2 : List ℚ} (h : l.Perm l2) (a : ℚ) :
    l.foldl max a = l2.foldl max a := by
  induction h generalizing a with
  | nil => rfl
  | cons x _ ih =>
      simp only [List.foldl_cons]
      exact ih _
  | swap x y t =>
      simp only [List.foldl_cons]
      rw [sup_right_comm]
  | trans h1 h2 ih1 ih2 => exact (ih1 a).trans (ih2 a)

theorem foldl_updMax_apply (us : List (WKey × ℚ)) (f : WKey → ℚ) (k : WKey) :
    (us.foldl updMax f) k = (hitsAt k us).foldl max (f k) := by
  induction us generalizing f with
  | nil => simp [hitsAt]
  | cons kv t ih =>
      simp only [List.foldl_cons]
      rw [ih]
      by_cases h : kv.1 = k
      · have hup : updMax f kv k = max (f k) kv.2 := by simp [updMax, h]
        simp [hitsAt, List.filterMap_cons, h, hup]
      · have hne : ¬ k = kv.1 := fun hh => h hh.symm
        have hup : updMax f kv k = f k := by simp [updMax, hne]
        simp [hitsAt, List.filterMap_cons, h, hup]

theorem foldl_applyWindow_apply (ti : TimeIndex) (rules : List PriorityWindow)
    (f : WKey → ℚ) (k : WKey) :
    (rules.foldl (applyWindow ti) f) k
      = (rules.flatMap (fun w => hitsAt k (windowUpdates ti w))).foldl max (f k) := by
  induction rules generalizing f with
  | nil => simp
  | cons w t ih =>
      simp only [List.foldl_cons, List.flatMap_cons]
      rw [ih, List.foldl_append]
      congr 1
      exact foldl_updMax_apply (windowUpdates ti w) f k

/-- The resolved weight at a key is the baseline-1 folded maximum of every
update the windows write to that key. -/
theorem resolvedWeights_apply (ti : TimeIndex) (rules : List PriorityWindow) (k : WKey) :
    resolvedWeights ti rules k
      = (rules.flatMap (fun w => hitsAt k (windowUpdates ti w))).foldl max 1 :=
  foldl_applyWindow_apply ti rules (fun _ => 1) k

theorem perm_flatMap {α β : Type} {l l2 : List α} (h : l.Perm l2) (g : α → List β) :
    (l.flatMap g).Perm (l2.flatMap g) := by
  induction h with
  | nil => exact List.Perm.refl _
  | cons x _ ih =>
      simp only [List.flatMap_cons]
      exact ih.append_left (g x)
  | swap x y t =>
      simp only [List.flatMap_cons]
      rw [← List.append_assoc, ← List.append_assoc]
      exact (List.perm_append_comm).append_right _
  | trans _ _ ih1 ih2 => exact ih1.trans ih2

theorem filterMap_keymatch (ps : List PriorityEntry) (dp bp d b : Nat)
    (direction channel : String) :
    ((ps.map (fun p => (((dp, bp, p.direction, p.channel) : WKey), entryWeight p))).filterMap
        (fun kv => if kv.1 = ((d, b, direction, channel) : WKey) then some kv.2 else none))
      = if dp = d ∧ bp = b then
          ps.filterMap (fun p =>
            if p.direction = direction ∧ p.channel = channel then some (entryWeight p) else none)
        else [] := by
  induction ps with
  | nil => simp
  | cons p t ih =>
      simp only [List.map_cons, List.filterMap_cons]
      by_cases hdb : dp = d ∧ bp = b
      · obtain ⟨h1, h2⟩ := hdb
        subst h1
        subst h2
        rw [ih]
        by_cases hpc : p.direction = direction ∧ p.channel = channel
        · obtain ⟨c1, c2⟩ := hpc
          simp [c1, c2, Prod.mk.injEq]
        · have hk : ¬ ((dp, bp, p.direction, p.channel) : WKey)
              = ((dp, bp, direction, channel) : WKey) := by
            simp only [Prod.mk.injEq]
            intro hc
            exact hpc ⟨hc.2.2.1, hc.2.2.2⟩
          simp [hk, hpc]
      · have hk : ¬ ((dp, bp, p.direction, p.channel) : WKey)
            = ((d, b, direction, channel) : WKey) := by
          simp only [Prod.mk.injEq]
          intro hc
          exact hdb ⟨hc.1, hc.2.1⟩
        rw [ih]
        simp [hk, hdb]

/-- What one window contributes to the key `(d, b, direction, channel)`:
its stream-matching entry weights when the day filter admits `d < days`
and the clipped bucket range contains `b`, and nothing otherwise. -/
theorem hitsAt_windowUpdates (ti : TimeIndex) (w : PriorityWindow)
    (d b : Nat) (direction channel : String) :
    hitsAt (d, b, direction, channel) (windowUpdates ti w)
      = if d < ti.days
            ∧ windowAppliesOn w (dowOf ti.start_date.toordinal d) = true
            ∧ hhmmToBucket w.start_hh w.start_mm ti.bucket_minutes ≤ b
            ∧ b < min (hhmmToBucket w.end_hh w.end_mm ti.bucket_minutes) ti.buckets_per_day
        then w.priorities.filterMap (fun p =>
          if p.direction = direction ∧ p.channel = channel then some (entryWeight p) else none)
        else [] := by
  unfold hitsAt windowUpdates
  rw [filterMap_flatMap]
  have hLBnd : ((List.range (min (hhmmToBucket w.end_hh w.end_mm ti.bucket_minutes)
      ti.buckets_per_day)).filter
        (fun bp => hhmmToBucket w.start_hh w.start_mm ti.bucket_minutes ≤ bp)).Nodup :=
    (List.nodup_range _).filter _
  have hLDnd : ((List.range ti.days).filter
      (fun dp => windowAppliesOn w (dowOf ti.start_date.toordinal dp))).Nodup :=
    (List.nodup_range _).filter _
  have hday : ∀ dp ∈ (List.range ti.days).filter
      (fun dp => windowAppliesOn w (dowOf ti.start_date.toordinal dp)),
      (((List.range (min (hhmmToBucket w.end_hh w.end_mm ti.bucket_minutes)
          ti.buckets_per_day)).filter
            (fun bp => hhmmToBucket w.start_hh w.start_mm ti.bucket_minutes ≤ bp)).flatMap
        (fun bp => w.priorities.map
          (fun p => (((dp, bp, p.direction, p.channel) : WKey), entryWeight p)))).filterMap
          (fun kv => if kv.1 = ((d, b, direction, channel) : WKey) then some kv.2 else none)
        = if dp = d then
            (if b ∈ (List.range (min (hhmmToBucket w.end_hh w.end_mm ti.bucket_minutes)
                ti.buckets_per_day)).filter
                  (fun bp => hhmmToBucket w.start_hh w.start_mm ti.bucket_minutes ≤ bp)
            then w.priorities.filterMap (fun p =>
              if p.direction = direction ∧ p.channel = channel
              then some (entryWeight p) else none)
            else [])
          else [] := by
    intro dp _
    rw [filterMap_flatMap]
    rw [flatMap_ite_single hLBnd b
        (if dp = d then
          w.priorities.filterMap (fun p =>
            if p.direction = direction ∧ p.channel = channel
            then some (entryWeight p) else none)
        else [])
        _ ?hg]
    case hg =>
      intro bp _
      rw [filterMap_keymatch]
      by_cases h1 : dp = d <;> by_cases h2 : bp = b <;> simp [h1, h2]
    by_cases h1 : dp = d <;>
      by_cases h2 : b ∈ (List.range (min (hhmmToBucket w.end_hh w.end_mm ti.bucket_minutes)
          ti.buckets_per_day)).filter
            (fun bp => hhmmToBucket w.start_hh w.start_mm ti.bucket_minutes ≤ bp) <;>
      simp [h1, h2]
  rw [flatMap_congr hday]
  rw [flatMap_ite_single hLDnd d _ _ (fun dp _ => rfl)]
  by_cases hd : d < ti.days <;>
    by_cases hap : windowAppliesOn w (dowOf ti.start_date.toordinal d) = true <;>
    by_cases hs : hhmmToBucket w.start_hh w.start_mm ti.bucket_minutes ≤ b <;>
    by_cases he : b < min (hhmmToBucket w.end_hh w.end_mm ti.bucket_minutes)
        ti.buckets_per_day <;>
    simp [List.mem_filter, List.mem_range, hd, hap, hs, he]

theorem windowAppliesOn_iff (w : PriorityWindow) (dow : String) :
    windowAppliesOn w dow = true
      ↔ (w.applies_to_days = [] ∨ dow ∈ w.applies_to_days) := by
  simp [windowAppliesOn, List.isEmpty_iff]

/-- Claim C5: for every slot and stream, the resolved priority weight is
the maximum of the baseline `1.0` and the declared-or-rank-default weights
of every matching window entry (day filter matching, half-open bucket
range clipped to the day, `[start_bucket, end_bucket)` containing the
bucket). -/
theorem resolvedWeights_spec (ti : TimeIndex) (rules : List PriorityWindow)
    (d b : Nat) (direction channel : String)
    (hd : d < ti.days) (hb : b < ti.buckets_per_day) :
    resolvedWeights ti rules (d, b, direction, channel)
      = specWeight ti rules d b direction channel := by
  rw [resolvedWeights_apply]
  unfold specWeight
  congr 1
  apply flatMap_congr
  intro w _
  rw [hitsAt_windowUpdates]
  refine if_congr ?_ rfl rfl
  constructor
  · rintro ⟨-, h2, h3, h4⟩
    exact ⟨(windowAppliesOn_iff _ _).mp h2, h3, (lt_min_iff.mp h4).1, (lt_min_iff.mp h4).2⟩
  · rintro ⟨h2, h3, h4, h5⟩
    exact ⟨hd, (windowAppliesOn_iff _ _).mpr h2, h3, lt_min_iff.mpr ⟨h4, h5⟩⟩

/-- Witness for C5, realising the spec scenario: two overlapping all-day
windows give `(inbound, voice)` weights 10 (rank-2 default) and 25
(declared); the resolved weight agrees with the spec formula and equals
25. -/
theorem resolvedWeights_spec_witness :
    resolvedWeights tiC4 [winA, winB] (0, 0, "inbound", "voice")
      = specWeight tiC4 [winA, winB] 0 0 "inbound" "voice" ∧
    resolvedWeights tiC4 [winA, winB] (0, 0, "inbound", "voice") = 25 :=
  ⟨resolvedWeights_spec tiC4 [winA, winB] 0 0 "inbound" "voice" (by decide) (by decide),
   by decide⟩

/-- Claim C4: the resolved weight table is invariant under permutation of
the priority-window list, and applying the same window a second time
leaves the table unchanged. -/
theorem resolvedWeights_perm_idem (ti : TimeIndex) (rules1 rules2 : List PriorityWindow)
    (hperm : rules1.Perm rules2) :
    (∀ k, resolvedWeights ti rules1 k = resolvedWeights ti rules2 k) ∧
    (∀ w k, resolvedWeights ti (rules1 ++ [w, w]) k
        = resolvedWeights ti (rules1 ++ [w]) k) := by
  constructor
  · intro k
    rw [resolvedWeights_apply, resolvedWeights_apply]
    exact foldl_max_perm (perm_flatMap hperm _) 1
  · intro w k
    rw [resolvedWeights_apply, resolvedWeights_apply]
    rw [List.flatMap_append, List.flatMap_append]
    simp only [List.flatMap_cons, List.flatMap_nil, List.append_nil]
    rw [List.foldl_append, List.foldl_append, List.foldl_append]
    exact foldl_max_self_absorb _ _

/-- Witness for C4 at a concrete input: swapping the two windows of the
C5 scenario leaves every resolved weight unchanged, and duplicating the
second window is a no-op. -/
theorem resolvedWeights_perm_idem_witness :
    resolvedWeights tiC4 [winA, winB] (0, 0, "inbound", "voice")
      = resolvedWeights tiC4 [winB, winA] (0, 0, "inbound", "voice") ∧
    resolvedWeights tiC4 ([winA] ++ [winB, winB]) (0, 0, "inbound", "voice")
      = resolvedWeights tiC4 ([winA] ++ [winB]) (0, 0, "inbound", "voice") :=
  ⟨(resolvedWeights_perm_idem tiC4 [winA, winB] [winB, winA] (by decide)).1 _,
   (resolvedWeights_perm_idem tiC4 [winA] [winA] (List.Perm.refl _)).2 winB _⟩

/-! ## Helper lemmas: coverage cardinality -/

theorem divmod_inj {n : Nat} (hn : 0 < n) :
    Function.Injective (fun b : Nat => (b / n, b % n)) := by
  intro a b h
  simp only [Prod.mk.injEq] at h
  have ha := Nat.div_add_mod a n
  have hb := Nat.div_add_mod b n
  rw [← ha, ← hb, h.1, h.2]

theorem countP_enumFrom_snd {α : Type} (l : List α) (n : Nat) (p : α → Bool) :
    ((List.enumFrom n l).countP (fun q => p q.2)) = l.countP p := by
  induction l generalizing n with
  | nil => simp
  | cons a t ih => simp [List.enumFrom_cons, List.countP_cons, ih]

/-- Claim C6: for every template whose coverage precomputation succeeds
(on a grid with at least one bucket per day), the covered
`(day_offset, bucket_in_day)` pairs are pairwise distinct and number
exactly `duration_minutes / bucket_minutes` in duration mode and the
count of 1-flags in explicit-pattern mode. -/
theorem template_covers_card (t : ShiftTemplate) (bm bpd : Nat) (hbpd : 0 < bpd)
    (l : List (Nat × Nat)) (hok : template_covers_bucket t bm bpd = .ok l) :
    l.Nodup ∧ l.length = (match t.bucket_work_pattern with
      | some pattern => pattern.countP (fun v => v = 1)
      | none => t.duration_minutes.getD 0 / bm) := by
  have hinj : Function.Injective
      (fun i : Nat => ((hhmmToBucket t.start_hh t.start_mm bm + i) / bpd,
        (hhmmToBucket t.start_hh t.start_mm bm + i) % bpd)) :=
    (divmod_inj hbpd).comp (add_right_injective _)
  cases hpat : t.bucket_work_pattern with
  | some pattern =>
      simp only [template_covers_bucket, hpat, Except.ok.injEq] at hok
      subst hok
      have hfsts : ((pattern.enum.filter (fun p => p.2 = 1)).map Prod.fst).Nodup := by
        have hsub : List.Sublist
            ((pattern.enum.filter (fun p => p.2 = 1)).map Prod.fst)
            (pattern.enum.map Prod.fst) :=
          (List.filter_sublist _).map Prod.fst
        have hrange : (pattern.enum.map Prod.fst).Nodup := by
          rw [List.enum_map_fst]
          exact List.nodup_range _
        exact hrange.sublist hsub
      refine ⟨?_, ?_⟩
      · have hmm : (pattern.enum.filter (fun p => p.2 = 1)).map
            (fun p => ((hhmmToBucket t.start_hh t.start_mm bm + p.1) / bpd,
              (hhmmToBucket t.start_hh t.start_mm bm + p.1) % bpd))
            = ((pattern.enum.filter (fun p => p.2 = 1)).map Prod.fst).map
              (fun i => ((hhmmToBucket t.start_hh t.start_mm bm + i) / bpd,
                (hhmmToBucket t.start_hh t.start_mm bm + i) % bpd)) := by
          rw [List.map_map]
          simp [Function.comp_def]
        rw [hmm]
        exact hfsts.map hinj
      · show _ = pattern.countP (fun v => v = 1)
        rw [List.length_map, ← List.countP_eq_length_filter]
        exact countP_enumFrom_snd pattern 0 (fun v => v = 1)
  | none =>
      cases hdur : t.duration_minutes with
      | none => simp [template_covers_bucket, hpat, hdur] at hok
      | some dur =>
          simp only [template_covers_bucket, hpat, hdur, Except.ok.injEq] at hok
          subst hok
          refine ⟨(List.nodup_range _).map hinj, ?_⟩
          simp

/-- Witness for C6: a 9:00 template of 480 minutes on a 30-minute grid
covers exactly the sixteen distinct buckets 18..33 of its own day. -/
theorem template_covers_card_witness :
    template_covers_bucket tC6 30 48 = .ok lC6 ∧ lC6.Nodup ∧ lC6.length = 480 / 30 := by
  have h := template_covers_card tC6 30 48 (by decide) lC6 (by decide)
  refine ⟨by decide, h.1, ?_⟩
  have h2 := h.2
  simpa [tC6] using h2

/-! ## Claim C9: the slot-resolution contract -/

/-- Claim C9: on a grid whose bucket size divides the day (the TimeGrid
invariant) and for a well-formed timestamp, `day_bucket_from_dt` fails
iff the date is out of horizon or the minute-of-day is misaligned — with
the respective errors, horizon checked first — and otherwise returns the
day difference from `start_date` paired with
`minute_of_day / bucket_minutes`. -/
theorem day_bucket_from_dt_spec (ti : TimeIndex) (dt : DateTime)
    (hbm : 0 < ti.bucket_minutes) (hdvd : 1440 % ti.bucket_minutes = 0)
    (hh : dt.hour < 24) (hm : dt.minute < 60) :
    ((∃ e, ti.day_bucket_from_dt dt = .error e)
        ↔ (ti.outsideHorizon dt ∨ ti.misalignedAt dt)) ∧
    (ti.outsideHorizon dt → ti.day_bucket_from_dt dt = .error .outOfHorizon) ∧
    (¬ ti.outsideHorizon dt → ti.misalignedAt dt →
        ti.day_bucket_from_dt dt = .error .misaligned) ∧
    (¬ ti.outsideHorizon dt → ¬ ti.misalignedAt dt →
        ti.day_bucket_from_dt dt
          = .ok ((ti.dayDiff dt).toNat,
              (dt.hour * 60 + dt.minute) / ti.bucket_minutes)) := by
  have hmod : dt.hour * 60 + dt.minute < 1440 := by omega
  have hbucket : (dt.hour * 60 + dt.minute) / ti.bucket_minutes < ti.buckets_per_day :=
    Nat.div_lt_div_of_lt_of_dvd (Nat.dvd_of_mod_eq_zero hdvd) hmod
  have himp1 : ti.outsideHorizon dt → ti.day_bucket_from_dt dt = .error .outOfHorizon := by
    intro h
    simp only [TimeIndex.day_bucket_from_dt]
    rw [if_pos h]
  have himp2 : ¬ ti.outsideHorizon dt → ti.misalignedAt dt →
      ti.day_bucket_from_dt dt = .error .misaligned := by
    intro h1 h2
    simp only [TimeIndex.day_bucket_from_dt]
    rw [if_neg h1, if_pos h2]
  have himp3 : ¬ ti.outsideHorizon dt → ¬ ti.misalignedAt dt →
      ti.day_bucket_from_dt dt
        = .ok ((ti.dayDiff dt).toNat,
            (dt.hour * 60 + dt.minute) / ti.bucket_minutes) := by
    intro h1 h2
    simp only [TimeIndex.day_bucket_from_dt]
    rw [if_neg h1, if_neg h2, if_neg (not_le.mpr hbucket)]
  refine ⟨⟨?_, ?_⟩, himp1, himp2, himp3⟩
  · rintro ⟨e, he⟩
    by_cases h1 : ti.outsideHorizon dt
    · exact Or.inl h1
    by_cases h2 : ti.misalignedAt dt
    · exact Or.inr h2
    rw [himp3 h1 h2] at he
    simp at he
  · rintro (h | h)
    · exact ⟨_, himp1 h⟩
    · by_cases h1 : ti.outsideHorizon dt
      · exact ⟨_, himp1 h1⟩
      · exact ⟨_, himp2 h1 h⟩

/-- Witness for C9, realising the spec scenario: a timestamp at `:15`
past the hour on a 30-minute-bucket grid, inside the horizon, fails as
misaligned. -/
theorem day_bucket_from_dt_spec_witness :
    tiC9.day_bucket_from_dt dtC9 = .error .misaligned :=
  (day_bucket_from_dt_spec tiC9 dtC9 (by decide) (by decide) (by decide)
      (by decide)).2.2.1 (by decide) (by decide)

/-! ## Claim C8: demand aggregation -/

theorem aggStep_ok (ti : TimeIndex) (st0 : AggState) (r : ForecastRow) (d b : Nat)
    (hdb : ti.day_bucket_from_dt r.timestamp = .ok (d, b))
    (hok : ∀ s, st0.sg_stream r.skill_group_id = some s → s = streamOf r) :
    aggStep ti st0 r = .ok
      ⟨fun k => if k = (d, b, r.skill_group_id) then st0.demand k + r.agents
                else st0.demand k,
       fun sg => if sg = r.skill_group_id then some (streamOf r)
                 else st0.sg_stream sg⟩ := by
  unfold aggStep
  rw [hdb]
  cases hss : st0.sg_stream r.skill_group_id with
  | none =>
      simp only [hss]
      rfl
  | some s =>
      have hse : s = streamOf r := hok s hss
      simp only [hss, hse, ne_eq, not_true_eq_false, if_false, ite_not]
      rfl

theorem aggStep_err (ti : TimeIndex) (st0 : AggState) (r : ForecastRow) (d b : Nat)
    (hdb : ti.day_bucket_from_dt r.timestamp = .ok (d, b))
    (s : Stream) (hss : st0.sg_stream r.skill_group_id = some s)
    (hne : s ≠ streamOf r) :
    aggStep ti st0 r = .error .inconsistentStream := by
  unfold aggStep
  rw [hdb]
  simp only [hss, hne, ne_eq, not_false_eq_true, if_true, ite_not]
  rfl

theorem demandSum_cons (ti : TimeIndex) (r : ForecastRow) (rest : List ForecastRow)
    (k : DKey) :
    demandSum ti (r :: rest) k
      = (if resolvesTo ti r k then r.agents else 0) + demandSum ti rest k := by
  by_cases h : resolvesTo ti r k <;> simp [demandSum, List.filter_cons, h]

/-- Successful aggregation: from a state whose recorded streams are
compatible with consistent rows, the fold succeeds and adds each row's
agents to exactly its slot. -/
theorem aggFold_ok (ti : TimeIndex) (rows : List ForecastRow) (st0 : AggState)
    (hres : ∀ r ∈ rows, ∃ p, ti.day_bucket_from_dt r.timestamp = .ok p)
    (hcompat : ∀ r ∈ rows, ∀ s, st0.sg_stream r.skill_group_id = some s → s = streamOf r)
    (hcons : streamsConsistent rows) :
    ∃ st, rows.foldlM (aggStep ti) st0 = .ok st ∧
      ∀ k, st.demand k = st0.demand k + demandSum ti rows k := by
  induction rows generalizing st0 with
  | nil =>
      refine ⟨st0, rfl, ?_⟩
      intro k
      simp [demandSum]
  | cons r rest ih =>
      obtain ⟨⟨d, b⟩, hdb⟩ := hres r (by simp)
      have hstep := aggStep_ok ti st0 r d b hdb
        (fun s hs => hcompat r (by simp) s hs)
      have hkey : ∀ k : DKey, (k = (d, b, r.skill_group_id)) ↔ resolvesTo ti r k := by
        rintro ⟨k1, k2, k3⟩
        unfold resolvesTo
        rw [hdb]
        simp only [Prod.mk.injEq, Except.ok.injEq]
        constructor
        · rintro ⟨rfl, rfl, rfl⟩
          exact ⟨⟨rfl, rfl⟩, rfl⟩
        · rintro ⟨⟨rfl, rfl⟩, rfl⟩
          exact ⟨rfl, rfl, rfl⟩
      obtain ⟨st, hfold, hdem⟩ := ih
        (⟨fun k => if k = (d, b, r.skill_group_id) then st0.demand k + r.agents
            else st0.demand k,
          fun sg => if sg = r.skill_group_id then some (streamOf r)
            else st0.sg_stream sg⟩)
        (fun r2 h2 => hres r2 (by simp [h2]))
        (by
          intro r2 h2 s hs
          by_cases hsg : r2.skill_group_id = r.skill_group_id
          · simp only [hsg, if_pos] at hs
            cases hs
            exact hcons r (by simp) r2 (by simp [h2]) hsg.symm
          · simp only [hsg, if_neg, ite_false] at hs
            exact hcompat r2 (by simp [h2]) s hs)
        (fun r1 h1 r2 h2 h =>
          hcons r1 (by simp [h1]) r2 (by simp [h2]) h)
      refine ⟨st, ?_, ?_⟩
      · rw [List.foldlM_cons, hstep]
        simpa using hfold
      · intro k
        rw [hdem k, demandSum_cons]
        simp only
        by_cases hk : resolvesTo ti r k
        · rw [if_pos ((hkey k).mpr hk), if_pos hk]
          omega
        · rw [if_neg (fun hc => hk ((hkey k).mp hc)), if_neg hk]
          omega

/-- Failing aggregation: if the rows (together with the already-recorded
streams) are inconsistent, the fold raises the inconsistent-stream
error. -/
theorem aggFold_err (ti : TimeIndex) (rows : List ForecastRow) (st0 : AggState)
    (hres : ∀ r ∈ rows, ∃ p, ti.day_bucket_from_dt r.timestamp = .ok p)
    (hbad : ¬ (streamsConsistent rows ∧
        ∀ r ∈ rows, ∀ s, st0.sg_stream r.skill_group_id = some s → s = streamOf r)) :
    rows.foldlM (aggStep ti) st0 = .error .inconsistentStream := by
  induction rows generalizing st0 with
  | nil =>
      exact absurd ⟨fun r h1 => absurd h1 (List.not_mem_nil r),
        fun r h1 => absurd h1 (List.not_mem_nil r)⟩ hbad
  | cons r rest ih =>
      obtain ⟨⟨d, b⟩, hdb⟩ := hres r (by simp)
      by_cases hconf : ∃ s, st0.sg_stream r.skill_group_id = some s ∧ s ≠ streamOf r
      · obtain ⟨s, hss, hsne⟩ := hconf
        rw [List.foldlM_cons, aggStep_err ti st0 r d b hdb s hss hsne]
        rfl
      · push_neg at hconf
        have hstep := aggStep_ok ti st0 r d b hdb hconf
        rw [List.foldlM_cons, hstep]
        show rest.foldlM (aggStep ti) _ = _
        apply ih _ (fun r2 h2 => hres r2 (by simp [h2]))
        rintro ⟨hc, hcomp⟩
        apply hbad
        constructor
        · intro r1 h1 r2 h2 hsg
          rcases List.mem_cons.mp h1 with h1e | h1m
          · rcases List.mem_cons.mp h2 with h2e | h2m
            · rw [h1e, h2e]
            · have hsgr : r2.skill_group_id = r.skill_group_id := by
                rw [← hsg, h1e]
              have hs1 : (fun sg => if sg = r.skill_group_id then some (streamOf r)
                  else st0.sg_stream sg) r2.skill_group_id = some (streamOf r) := by
                simp [hsgr]
              rw [h1e]
              exact hcomp r2 h2m (streamOf r) hs1
          · rcases List.mem_cons.mp h2 with h2e | h2m
            · have hsgr : r1.skill_group_id = r.skill_group_id := by
                rw [hsg, h2e]
              have hs1 : (fun sg => if sg = r.skill_group_id then some (streamOf r)
                  else st0.sg_stream sg) r1.skill_group_id = some (streamOf r) := by
                simp [hsgr]
              rw [h2e]
              exact (hcomp r1 h1m (streamOf r) hs1).symm
            · exact hc r1 h1m r2 h2m hsg
        · intro r2 h2 s hs
          rcases List.mem_cons.mp h2 with h2e | h2m
          · rw [h2e] at hs ⊢
            exact hconf s hs
          · by_cases hsg : r2.skill_group_id = r.skill_group_id
            · have hs1 : (fun sg => if sg = r.skill_group_id then some (streamOf r)
                  else st0.sg_stream sg) r2.skill_group_id = some (streamOf r) := by
                simp [hsg]
              have hrr2 := hcomp r2 h2m (streamOf r) hs1
              have hs0 : st0.sg_stream r.skill_group_id = some s := by
                rw [← hsg]
                exact hs
              rw [hconf s hs0]
              exact hrr2
            · have hs1 : (fun sg => if sg = r.skill_group_id then some (streamOf r)
                  else st0.sg_stream sg) r2.skill_group_id = some s := by
                simp [hsg, hs]
              exact hcomp r2 h2m s hs1

/-- Claim C8: over forecast rows whose timestamps all resolve, the
aggregation raises the inconsistent-stream-mapping error iff some skill
group id occurs with two different `(direction, channel)` streams, it
succeeds iff the mapping is consistent (an error aborts the fold with no
partial result), and on success every demand entry is the SUM of the
`agents` of all rows resolving to that `(slot, skill_group)`. -/
theorem aggregate_spec (ti : TimeIndex) (rows : List ForecastRow)
    (hres : ∀ r ∈ rows, ∃ p, ti.day_bucket_from_dt r.timestamp = .ok p) :
    (aggregate ti rows = .error .inconsistentStream ↔ ¬ streamsConsistent rows) ∧
    ((∃ st, aggregate ti rows = .ok st) ↔ streamsConsistent rows) ∧
    (∀ st, aggregate ti rows = .ok st → ∀ k, st.demand k = demandSum ti rows k) := by
  have hcompat0 : ∀ r ∈ rows, ∀ s,
      (⟨fun _ => 0, fun _ => none⟩ : AggState).sg_stream r.skill_group_id = some s →
        s = streamOf r := by
    intro r _ s h
    cases h
  constructor
  · constructor
    · intro herr hcons
      obtain ⟨st, hok, -⟩ := aggFold_ok ti rows (⟨fun _ => 0, fun _ => none⟩ : AggState) hres hcompat0 hcons
      unfold aggregate at herr
      rw [hok] at herr
      cases herr
    · intro hcons
      exact aggFold_err ti rows (⟨fun _ => 0, fun _ => none⟩ : AggState) hres (fun h => hcons h.1)
  constructor
  · constructor
    · rintro ⟨st, hok⟩
      by_contra hcons
      have herr := aggFold_err ti rows (⟨fun _ => 0, fun _ => none⟩ : AggState) hres (fun h => hcons h.1)
      unfold aggregate at hok
      rw [herr] at hok
      cases hok
    · intro hcons
      obtain ⟨st, hok, -⟩ := aggFold_ok ti rows (⟨fun _ => 0, fun _ => none⟩ : AggState) hres hcompat0 hcons
      exact ⟨st, hok⟩
  · intro st hok k
    by_cases hcons : streamsConsistent rows
    · obtain ⟨st2, hok2, hdem⟩ := aggFold_ok ti rows (⟨fun _ => 0, fun _ => none⟩ : AggState) hres hcompat0 hcons
      unfold aggregate at hok
      rw [hok2] at hok
      cases hok
      simpa using hdem k
    · have herr := aggFold_err ti rows (⟨fun _ => 0, fun _ => none⟩ : AggState) hres (fun h => hcons h.1)
      unfold aggregate at hok
      rw [herr] at hok
      cases hok

/-- Witness for C8: the two rows of `rowsC8` land on the same slot and
skill group; aggregation succeeds and sums their agents, 2 + 3 = 5. -/
theorem aggregate_spec_witness :
    (aggregate tiC8 rowsC8).toOption.map
        (fun st => st.demand ((0 : Nat), (0 : Nat), "s1"))
      = some (demandSum tiC8 rowsC8 ((0 : Nat), (0 : Nat), "s1")) ∧
    demandSum tiC8 rowsC8 ((0 : Nat), (0 : Nat), "s1") = 5 := by
  have hres : ∀ r ∈ rowsC8, ∃ p, tiC8.day_bucket_from_dt r.timestamp = .ok p := by
    intro r hr
    rcases List.mem_cons.mp hr with h | hr2
    · exact ⟨(0, 0), by rw [h]; decide⟩
    rcases List.mem_cons.mp hr2 with h | hr3
    · exact ⟨(0, 0), by rw [h]; decide⟩
    · cases hr3
  have h := aggregate_spec tiC8 rowsC8 hres
  obtain ⟨st, hst⟩ := h.2.1.mpr (by decide)
  have hd := h.2.2 st hst ((0 : Nat), (0 : Nat), "s1")
  refine ⟨?_, by decide⟩
  rw [hst]
  exact congrArg some hd

/-! ## Claim C10: the unconditional duration_minutes reads -/

theorem covCheck_err_shape (inp : Input) (e : BuildErr)
    (h : covCheck inp = .error e) : e = BuildErr.missingDuration := by
  unfold covCheck at h
  revert h
  generalize inp.shift_templates = l
  induction l with
  | nil => intro h; cases h
  | cons a t ih =>
      intro h
      rw [List.foldlM_cons] at h
      cases hc : template_covers_bucket a inp.bucket_minutes inp.ti.buckets_per_day with
      | error e2 =>
          have he2 : e2 = BuildErr.missingDuration := by
            unfold template_covers_bucket at hc
            cases hp : a.bucket_work_pattern with
            | some pattern => rw [hp] at hc; cases hc
            | none =>
                rw [hp] at hc
                cases hd : a.duration_minutes with
                | none => rw [hd] at hc; cases hc; rfl
                | some dmin => rw [hd] at hc; cases hc
          rw [hc] at h
          cases h
          exact he2
      | ok l =>
          rw [hc] at h
          exact ih h

theorem templatesFold_err (l : List ShiftTemplate)
    (ht : ∃ t ∈ l, t.duration_minutes = none) :
    l.foldlM (fun (_ : Unit) t => match t.duration_minutes with
      | none => Except.error BuildErr.missingDuration
      | some _ => Except.ok ()) ()
      = .error BuildErr.missingDuration := by
  induction l with
  | nil =>
      obtain ⟨t, hmem, -⟩ := ht
      cases hmem
  | cons a t ih =>
      rw [List.foldlM_cons]
      cases hd : a.duration_minutes with
      | none => rfl
      | some dmin =>
          show t.foldlM _ () = _
          obtain ⟨t2, hmem, hnone⟩ := ht
          rcases List.mem_cons.mp hmem with h2e | h2m
          · rw [h2e] at hnone
            rw [hnone] at hd
            cases hd
          · exact ih ⟨t2, h2m, hnone⟩

theorem allowedCheck_err (inp : Input) (hegs : inp.employment_groups ≠ [])
    (ht : ∃ t ∈ inp.shift_templates, t.duration_minutes = none) :
    allowedCheck inp = .error BuildErr.missingDuration := by
  obtain ⟨eg, egs, hegseq⟩ : ∃ eg egs, inp.employment_groups = eg :: egs := by
    cases h : inp.employment_groups with
    | nil => exact absurd h hegs
    | cons eg egs => exact ⟨eg, egs, rfl⟩
  unfold allowedCheck
  rw [hegseq, List.foldlM_cons, templatesFold_err inp.shift_templates ht]
  rfl

/-- Claim C10 (amended): whenever the duration reads are actually reached
— aggregation succeeds and at least one employment group is declared — an
input containing a template without `duration_minutes` (pattern-only or
not) makes model construction fail with the missing-key error instead of
scheduling the template by its pattern. -/
theorem missing_duration_fails (inp : Input)
    (hagg : ∃ st, aggregate inp.ti inp.forecast = .ok st)
    (hegs : inp.employment_groups ≠ [])
    (ht : ∃ t ∈ inp.shift_templates, t.duration_minutes = none) :
    buildModel inp = .error BuildErr.missingDuration := by
  obtain ⟨st, hst⟩ := hagg
  unfold buildModel
  rw [hst]
  cases hcov : covCheck inp with
  | error e =>
      have he := covCheck_err_shape inp e hcov
      subst he
      rfl
  | ok u =>
      cases u
      have hac := allowedCheck_err inp hegs ht
      rw [hac]
      rfl

/-- Counterexample for C10 as stated: `cinpC10` contains a pattern-only
template with no `duration_minutes`, yet — having no employment groups
and no employees — model construction succeeds, because neither the
eligibility filter nor the weekly-hours loop ever reads the field. -/
theorem missing_duration_cex :
    cinpC10.shift_templates.map (fun t => t.duration_minutes) = [none] ∧
    (buildModel cinpC10).toOption.isSome = true := by
  constructor
  · rfl
  · decide

/-- Witness for C10: with one employment group declared, the same
pattern-only template makes construction fail with the missing-key
error. -/
theorem missing_duration_fails_witness :
    buildModel cinpC10w = .error BuildErr.missingDuration :=
  missing_duration_fails cinpC10w ⟨⟨fun _ => 0, fun _ => none⟩, rfl⟩ (by decide)
    ⟨tplPatternOnly, by decide, rfl⟩

/-! ## Claim C7: the coverage constraints -/

/-- A successfully built model decomposes into the four constraint
families over the aggregated demand. -/
theorem buildModel_ok_parts {inp : Input} {m : Model} (hm : buildModel inp = .ok m) :
    ∃ st, aggregate inp.ti inp.forecast = .ok st ∧
      m.constraints = oneShiftConstrs inp ++ weeklyConstrs inp ++ allocWorkConstrs inp
        ++ coverageConstrs inp st.demand ∧
      m.demand = st.demand ∧ m.sg_stream = st.sg_stream := by
  unfold buildModel at hm
  cases hagg : aggregate inp.ti inp.forecast with
  | error e =>
      rw [hagg] at hm
      cases hm
  | ok st =>
      rw [hagg] at hm
      cases hcov : covCheck inp with
      | error e =>
          rw [hcov] at hm
          cases hm
      | ok u =>
          cases u
          rw [hcov] at hm
          cases hal : allowedCheck inp with
          | error e =>
              rw [hal] at hm
              cases hm
          | ok u2 =>
              cases u2
              rw [hal] at hm
              cases hgr : groupsCheck inp with
              | error e =>
                  rw [hgr] at hm
                  cases hm
              | ok u3 =>
                  cases u3
                  rw [hgr] at hm
                  replace hm : Except.ok
                      ({ constraints := oneShiftConstrs inp ++ weeklyConstrs inp
                           ++ allocWorkConstrs inp ++ coverageConstrs inp st.demand,
                         demand := st.demand,
                         sg_stream := st.sg_stream,
                         objective := objectiveExpr inp st.sg_stream } : Model)
                      = Except.ok m := hm
                  cases hm
                  exact ⟨st, rfl, rfl, rfl, rfl⟩

theorem nodup_prod_lists (l1 l2 : List Nat) (h1 : l1.Nodup) (h2 : l2.Nodup) :
    (l1.flatMap (fun d => l2.map (fun b => (d, b)))).Nodup := by
  induction l1 with
  | nil => simp
  | cons a t ih =>
      simp only [List.flatMap_cons]
      refine List.Nodup.append ?_ (ih (List.nodup_cons.mp h1).2) ?_
      · exact h2.map (fun b1 b2 h => congrArg Prod.snd h)
      · intro x hx1 hx2
        obtain ⟨b1, -, hb1⟩ := List.mem_map.mp hx1
        obtain ⟨d2, hd2, hx3⟩ := List.mem_flatMap.mp hx2
        obtain ⟨b2, -, hb2⟩ := List.mem_map.mp hx3
        have hfst : a = d2 := by
          rw [← hb1] at hb2
          exact (congrArg Prod.fst hb2).symm
        exact (List.nodup_cons.mp h1).1 (hfst ▸ hd2)

theorem iter_day_buckets_nodup (ti : TimeIndex) : ti.iter_day_buckets.Nodup :=
  nodup_prod_lists _ _ (List.nodup_range _) (List.nodup_range _)

theorem mem_iter_day_buckets {ti : TimeIndex} {d b : Nat} :
    (d, b) ∈ ti.iter_day_buckets ↔ d < ti.days ∧ b < ti.buckets_per_day := by
  unfold TimeIndex.iter_day_buckets
  simp only [List.mem_flatMap, List.mem_map, List.mem_range, Prod.mk.injEq]
  constructor
  · rintro ⟨d2, hd2, b2, hb2, rfl, rfl⟩
    exact ⟨hd2, hb2⟩
  · rintro ⟨hd, hb⟩
    exact ⟨d, hd, b, hb, rfl, rfl⟩

theorem covConstr_mem (inp : Input) (demand : DKey → Nat) {day b : Nat} {sg : String}
    (hd : day < inp.days) (hb : b < inp.ti.buckets_per_day)
    (hsg : sg ∈ inp.skill_groups) :
    covConstrOf inp demand day b sg ∈ coverageConstrs inp demand ∧
    noOverConstrOf inp demand day b sg ∈ coverageConstrs inp demand := by
  have hslot : (day, b) ∈ inp.ti.iter_day_buckets := mem_iter_day_buckets.mpr ⟨hd, hb⟩
  constructor
  · refine List.mem_flatMap.mpr ⟨(day, b), hslot, ?_⟩
    refine List.mem_flatMap.mpr ⟨sg, hsg, ?_⟩
    exact List.mem_cons_self _ _
  · refine List.mem_flatMap.mpr ⟨(day, b), hslot, ?_⟩
    refine List.mem_flatMap.mpr ⟨sg, hsg, ?_⟩
    refine List.mem_cons_of_mem _ ?_
    rw [if_pos (Int.natCast_nonneg _)]
    exact List.mem_singleton.mpr rfl

theorem evalExpr_allocSum (inp : Input) (v : Var → ℚ) (day b : Nat) (sg : String) :
    evalExpr v (allocSumExpr inp day b sg) = allocatedAt inp v day b sg :=
  evalExpr_filterMap_one v inp.employees (fun e => sg ∈ e.skill_group_ids)
    (fun e => Var.zv e.id day b sg)

theorem allocatedAt_nonneg (inp : Input) (v : Var → ℚ) {day b : Nat} (sg : String)
    (hd : day < inp.days) (hb : b < inp.ti.buckets_per_day)
    (hdom : domainsOk inp v) :
    0 ≤ allocatedAt inp v day b sg := by
  unfold allocatedAt
  apply List.sum_nonneg
  intro x hx
  obtain ⟨e, he, rfl⟩ := List.mem_map.mp hx
  by_cases hsk : sg ∈ e.skill_group_ids
  · rw [if_pos hsk]
    rcases hdom.2.1 e he sg hsk day hd b hb with h0 | h1
    · rw [h0]
    · rw [h1]
      norm_num
  · rw [if_neg hsk]

/-- Claim C7: for every slot and skill group — zero-demand ones included —
the built model contains both the coverage constraint
`Σ z + u ≥ required` and the no-over-allocation constraint
`Σ z + u − u ≤ required`; consequently any domain-respecting solver
values satisfying the model's constraints give a coverage table in which
every row has `allocated + understaff ≥ required`, `allocated ≤ required`
and `allocated = 0` wherever `required = 0`. -/
theorem coverage_constraints_spec (inp : Input) (m : Model)
    (hm : buildModel inp = .ok m) :
    (∀ day < inp.days, ∀ b < inp.ti.buckets_per_day, ∀ sg ∈ inp.skill_groups,
        covConstrOf inp m.demand day b sg ∈ m.constraints ∧
        noOverConstrOf inp m.demand day b sg ∈ m.constraints) ∧
    (∀ v, (∀ c ∈ m.constraints, satisfied v c) → domainsOk inp v →
        ∀ row ∈ coverageRows inp m v,
          (row.required : ℚ) ≤ row.allocated + row.understaff ∧
          row.allocated ≤ (row.required : ℚ) ∧
          (row.required = 0 → row.allocated = 0)) := by
  obtain ⟨st, hagg, hcs, hdemand, hsgs⟩ := buildModel_ok_parts hm
  have hmemD : ∀ c ∈ coverageConstrs inp st.demand, c ∈ m.constraints := by
    intro c hc
    rw [hcs]
    exact List.mem_append.mpr (Or.inr hc)
  constructor
  · intro day hd b hb sg hsg
    have h2 := covConstr_mem inp st.demand hd hb hsg
    rw [hdemand]
    exact ⟨hmemD _ h2.1, hmemD _ h2.2⟩
  · intro v hsat hdom row hrow
    unfold coverageRows at hrow
    obtain ⟨db, hdb, hrow2⟩ := List.mem_flatMap.mp hrow
    obtain ⟨sg, hsg, hroweq⟩ := List.mem_map.mp hrow2
    rcases db with ⟨day, b⟩
    obtain ⟨hd, hb⟩ := mem_iter_day_buckets.mp hdb
    subst hroweq
    simp only
    have hmem := covConstr_mem inp st.demand hd hb hsg
    have hsat1 := hsat _ (hmemD _ hmem.1)
    have hsat2 := hsat _ (hmemD _ hmem.2)
    simp only [satisfied, covConstrOf, noOverConstrOf] at hsat1 hsat2
    rw [evalExpr_append, evalExpr_allocSum] at hsat1
    rw [evalExpr_append, evalExpr_append, evalExpr_allocSum] at hsat2
    simp only [evalExpr, List.map_cons, List.map_nil, List.sum_cons, List.sum_nil,
      one_mul, neg_one_mul, add_zero] at hsat1 hsat2
    have halloc := allocatedAt_nonneg inp v sg hd hb hdom
    rw [hdemand]
    refine ⟨by linarith, by linarith, ?_⟩
    intro hreq0
    have hreq0Q : (st.demand (day, b, sg) : ℚ) = 0 := by
      rw [hreq0]
      norm_num
    linarith

/-- Witness for C7: in the built model of `cinpC7` both coverage
constraints for slot `(0, 0)`, skill `"s1"` are present, and the slack
valuation `vC7` (which satisfies the model) yields a coverage row obeying
both inequalities. -/
theorem coverage_constraints_spec_witness :
    covConstrOf cinpC7 mC7.demand 0 0 "s1" ∈ mC7.constraints ∧
    ((rowC7.required : ℚ) ≤ rowC7.allocated + rowC7.understaff) ∧
    (rowC7.allocated ≤ (rowC7.required : ℚ)) := by
  have h1 := (coverage_constraints_spec cinpC7 mC7 rfl).1 0 (by decide) 0 (by decide)
    "s1" (by decide)
  have h2 := (coverage_constraints_spec cinpC7 mC7 rfl).2 vC7
    (of_decide_eq_true (by with_unfolding_all rfl))
    (of_decide_eq_true (by with_unfolding_all rfl))
    rowC7 (of_decide_eq_true (by with_unfolding_all rfl))
  exact ⟨h1.1, h2.1, h2.2.1⟩

/-! ## Claim C2: the weekly-hours constraints -/

/-- Claim C2 (amended): for every employee and every block of the
`start_date`-aligned 7-day partition (`weeks = range((days+6)//7)`, block
`w` covering days `7w .. min(days, 7w+7))`, including a trailing partial
block), the built model contains the two hard constraints
`min_week ≤ Σ duration_hours(t)·assign[e,d,t]` and `… ≤ max_week`, summed
over the days of the block and the templates available to the employee;
any values satisfying the model's constraints respect both bounds. -/
theorem weekly_constraints_spec (inp : Input) (m : Model)
    (hm : buildModel inp = .ok m)
    (e : Employee) (he : e ∈ inp.employees) (eg : EmploymentGroup)
    (heg : findGroup inp e.employment_group_id = some eg)
    (w : Nat) (hw : w ∈ inp.ti.weeks) :
    (⟨weekLhs inp e w, Sense.ge, eg.week_min⟩ : Constr) ∈ m.constraints ∧
    (⟨weekLhs inp e w, Sense.le, eg.week_max⟩ : Constr) ∈ m.constraints ∧
    (∀ v, (∀ c ∈ m.constraints, satisfied v c) →
        eg.week_min ≤ evalExpr v (weekLhs inp e w) ∧
        evalExpr v (weekLhs inp e w) ≤ eg.week_max) := by
  obtain ⟨st, hagg, hcs, -, -⟩ := buildModel_ok_parts hm
  have hlift : ∀ c ∈ weeklyConstrs inp, c ∈ m.constraints := by
    intro c hc
    rw [hcs]
    exact List.mem_append.mpr (Or.inl (List.mem_append.mpr (Or.inl
      (List.mem_append.mpr (Or.inr hc)))))
  have hmem1 : (⟨weekLhs inp e w, Sense.ge, eg.week_min⟩ : Constr)
      ∈ weeklyConstrs inp := by
    unfold weeklyConstrs
    refine List.mem_flatMap.mpr ⟨e, he, ?_⟩
    rw [heg]
    refine List.mem_flatMap.mpr ⟨w, hw, ?_⟩
    exact List.mem_cons_self _ _
  have hmem2 : (⟨weekLhs inp e w, Sense.le, eg.week_max⟩ : Constr)
      ∈ weeklyConstrs inp := by
    unfold weeklyConstrs
    refine List.mem_flatMap.mpr ⟨e, he, ?_⟩
    rw [heg]
    refine List.mem_flatMap.mpr ⟨w, hw, ?_⟩
    exact List.mem_cons_of_mem _ (List.mem_cons_self _ _)
  refine ⟨hlift _ hmem1, hlift _ hmem2, ?_⟩
  intro v hsat
  have h1 := hsat _ (hlift _ hmem1)
  have h2 := hsat _ (hlift _ hmem2)
  simp only [satisfied] at h1 h2
  exact ⟨h1, h2⟩

/-- Counterexample for C2 as stated: the blocks are aligned to
`start_date`, not to ISO calendar weeks.  With `start_date` a Thursday
(2026-01-01), `week_of_day` puts day 0 and day 4 in the same block — and
the block-0 weekly lhs of the built model sums both days — although they
lie in different ISO weeks (their ISO-week Mondays differ). -/
theorem weekly_blocks_not_iso_cex :
    cinpC2.ti.week_of_day 0 = cinpC2.ti.week_of_day 4 ∧
    Var.sv "e1" 0 "t1" ∈ (weekLhs cinpC2 empStd 0).map (fun t => t.var) ∧
    Var.sv "e1" 4 "t1" ∈ (weekLhs cinpC2 empStd 0).map (fun t => t.var) ∧
    isoWeekMonday (cinpC2.start_date.toordinal + 0)
      ≠ isoWeekMonday (cinpC2.start_date.toordinal + 4) := by
  refine ⟨rfl, ?_, ?_, by decide⟩
  · exact of_decide_eq_true (by with_unfolding_all rfl)
  · exact of_decide_eq_true (by with_unfolding_all rfl)

/-- Witness for C2: both weekly constraints for employee `e1` and block 0
are present in the model built from `cinpC2`. -/
theorem weekly_constraints_spec_witness :
    (⟨weekLhs cinpC2 empStd 0, Sense.ge, egStd.week_min⟩ : Constr) ∈ mC2.constraints ∧
    (⟨weekLhs cinpC2 empStd 0, Sense.le, egStd.week_max⟩ : Constr) ∈ mC2.constraints := by
  have h := weekly_constraints_spec cinpC2 mC2 rfl empStd (by decide) egStd rfl
    0 (by decide)
  exact ⟨h.1, h.2.1⟩

/-! ## Claim C1: the work expression -/

theorem map_congr_mem {α β : Type} {l : List α} {f g : α → β}
    (h : ∀ x ∈ l, f x = g x) : l.map f = l.map g := by
  induction l with
  | nil => rfl
  | cons a t ih =>
      rw [List.map_cons, List.map_cons, h a (by simp),
        ih (fun x hx => h x (by simp [hx]))]

theorem sum_map_ite_const {α : Type} (l : List α) (c : Prop) [Decidable c]
    (g : α → ℚ) :
    (l.map (fun x => if c then g x else 0)).sum
      = if c then (l.map g).sum else 0 := by
  by_cases h : c <;> simp [h]

/-- Sum of a guard-indexed map over a duplicate-free pair list whose guard
confines the first component to `{0, 1}`. -/
theorem sum_pairs_clamped {l : List (Nat × Nat)} (hl : l.Nodup) (b day : Nat)
    (f : Nat → ℚ) (P : Prop) [Decidable P] :
    (l.map (fun p => if P ∧ p.2 = b ∧ p.1 ≤ day ∧ p.1 ≤ 1 then f p.1 else 0)).sum
      = (if P ∧ ((0 : Nat), b) ∈ l then f 0 else 0)
        + (if 1 ≤ day then (if P ∧ ((1 : Nat), b) ∈ l then f 1 else 0) else 0) := by
  induction l with
  | nil => simp
  | cons p t ih =>
      have hnd := (List.nodup_cons.mp hl).2
      have hpt := (List.nodup_cons.mp hl).1
      rw [List.map_cons, List.sum_cons, ih hnd]
      by_cases hp0 : p = ((0 : Nat), b)
      · subst hp0
        have h1 : (((1 : Nat), b) ∈ ((0 : Nat), b) :: t) ↔ (((1 : Nat), b) ∈ t) := by
          simp [List.mem_cons]
        by_cases hP : P <;> by_cases hd : 1 ≤ day <;>
          simp [hP, hd, hpt, h1, Nat.zero_le] <;> ring
      · by_cases hp1 : p = ((1 : Nat), b)
        · subst hp1
          have h0 : (((0 : Nat), b) ∈ ((1 : Nat), b) :: t) ↔ (((0 : Nat), b) ∈ t) := by
            simp [List.mem_cons]
          by_cases hP : P <;> by_cases hd : 1 ≤ day <;>
            simp [hP, hd, hpt, h0, Nat.zero_le] <;> ring
        · have hzero : (if P ∧ p.2 = b ∧ p.1 ≤ day ∧ p.1 ≤ 1 then f p.1 else 0) = 0 := by
            apply if_neg
            rintro ⟨-, hpb, -, hle⟩
            have hcase : p.1 = 0 ∨ p.1 = 1 := by omega
            rcases hcase with h0 | h0
            · exact hp0 (by rcases p with ⟨pd, pb⟩; simp only at hpb h0; rw [h0, hpb])
            · exact hp1 (by rcases p with ⟨pd, pb⟩; simp only at hpb h0; rw [h0, hpb])
          have h0 : (((0 : Nat), b) ∈ p :: t) ↔ (((0 : Nat), b) ∈ t) := by
            constructor
            · intro h
              rcases List.mem_cons.mp h with he | h
              · exact absurd he.symm hp0
              · exact h
            · exact fun h => List.mem_cons_of_mem _ h
          have h1 : (((1 : Nat), b) ∈ p :: t) ↔ (((1 : Nat), b) ∈ t) := by
            constructor
            · intro h
              rcases List.mem_cons.mp h with he | h
              · exact absurd he.symm hp1
              · exact h
            · exact fun h => List.mem_cons_of_mem _ h
          rw [hzero, zero_add]
          simp only [h0, h1]

theorem covp_iff_mem_dedup (inp : Input) (tid : String) (doff b : Nat) :
    covp inp tid doff b = true ↔ (doff, b) ∈ (covListOf inp tid).dedup := by
  simp [covp, List.mem_dedup]

/-- Claim C1 (amended): the work expression the Model Builder creates for
employee `emp` (group `egid`) at a slot evaluates, under every valuation,
to the spec's sum of `assign[e, day − day_offset, t]` over the pairs
`(t, day_offset)` with `(day_offset, bucket)` in `coverage(t)` and
`day − day_offset ≥ 0`, but with `day_offset` additionally clamped to
`day_offset ≤ max_day_off = 1` — not over all day offsets occurring in
coverage sets. -/
theorem work_expr_clamped (inp : Input) (v : Var → ℚ) (emp egid : String)
    (day b : Nat) :
    evalExpr v (workExpr inp emp egid day b)
      = specWorkClamped inp v emp egid day b := by
  unfold workExpr
  rw [show List.range (max_day_off + 1) = [0, 1] from rfl]
  simp only [List.flatMap_cons, List.flatMap_nil, List.append_nil]
  rw [evalExpr_append]
  have heval : ∀ doff : Nat,
      evalExpr v (if doff ≤ day then (templateIds inp).filterMap (fun tid =>
          if allowedFn inp egid tid ∧ covp inp tid doff b then
            some ⟨1, Var.sv emp (day - doff) tid⟩ else none) else [])
        = if doff ≤ day then ((templateIds inp).map (fun tid =>
            if allowedFn inp egid tid ∧ covp inp tid doff b then
              v (Var.sv emp (day - doff) tid) else 0)).sum else 0 := by
    intro doff
    by_cases hdoff : doff ≤ day
    · rw [if_pos hdoff, if_pos hdoff, evalExpr_filterMap_one]
    · rw [if_neg hdoff, if_neg hdoff]
      rfl
  rw [heval 0, heval 1, if_pos (Nat.zero_le day)]
  unfold specWorkClamped
  have hinner : ∀ tid ∈ templateIds inp,
      (((covListOf inp tid).dedup).map (fun p =>
          if allowedFn inp egid tid ∧ p.2 = b ∧ p.1 ≤ day ∧ p.1 ≤ max_day_off then
            v (Var.sv emp (day - p.1) tid) else 0)).sum
        = (if (allowedFn inp egid tid = true) ∧ ((0 : Nat), b) ∈ (covListOf inp tid).dedup
            then v (Var.sv emp (day - 0) tid) else 0)
          + (if 1 ≤ day then
              (if (allowedFn inp egid tid = true)
                  ∧ ((1 : Nat), b) ∈ (covListOf inp tid).dedup
                then v (Var.sv emp (day - 1) tid) else 0) else 0) := by
    intro tid _
    exact sum_pairs_clamped (List.nodup_dedup _) b day
      (fun doff => v (Var.sv emp (day - doff) tid)) (allowedFn inp egid tid = true)
  rw [map_congr_mem hinner, sum_map_add]
  congr 1
  · apply congrArg
    apply map_congr_mem
    intro tid _
    refine if_congr ?_ rfl rfl
    exact and_congr Iff.rfl (covp_iff_mem_dedup inp tid 0 b)
  · rw [sum_map_ite_const]
    by_cases hd : 1 ≤ day
    · rw [if_pos hd, if_pos hd]
      apply congrArg
      apply map_congr_mem
      intro tid _
      refine if_congr ?_ rfl rfl
      exact and_congr Iff.rfl (covp_iff_mem_dedup inp tid 1 b)
    · rw [if_neg hd, if_neg hd]

/-- Counterexample for C1 as stated: in `cinpC1` the eligible pattern
template covers `(day_offset, bucket) = (2, 0)`, but the built work
expression only looks back `max_day_off = 1` days, so at slot `(2, 0)`
it misses the day-0 assignment the spec's unclamped sum counts. -/
theorem work_expr_full_cex :
    evalExpr vC1 (workExpr cinpC1 "e1" "g1" 2 0)
      ≠ specWorkFull cinpC1 vC1 "e1" "g1" 2 0 :=
  of_decide_eq_true (by with_unfolding_all rfl)

/-! ## Claim C3: re-aggregating the allocation list -/

theorem sum_filterMap_filter {α β : Type} (l : List α) (P : α → Prop)
    [DecidablePred P] (F : α → β) (q : β → Bool) (w : β → Nat) :
    (((l.filterMap (fun x => if P x then some (F x) else none)).filter q).map w).sum
      = (l.map (fun x => if P x ∧ q (F x) = true then w (F x) else 0)).sum := by
  induction l with
  | nil => rfl
  | cons a t ih =>
      simp only [List.filterMap_cons, List.map_cons, List.sum_cons]
      by_cases h : P a
      · rw [if_pos h]
        by_cases hq : q (F a) = true
        · rw [List.filter_cons_of_pos hq, List.map_cons, List.sum_cons, ih,
            if_pos ⟨h, hq⟩]
        · rw [List.filter_cons_of_neg (by simpa using hq), ih,
            if_neg (fun hc => hq hc.2)]
          omega
      · rw [if_neg h, ih, if_neg (fun hc => h hc.1)]
        omega

/-- The per-slot, per-skill re-aggregation of the thresholded allocation
list equals the raw value sum whenever the allocation variables carry
exactly-binary values. -/
theorem reAgg_eq_allocated (inp : Input) (v : Var → ℚ) (day b : Nat) (sg : String)
    (hd : day < inp.days) (hb : b < inp.ti.buckets_per_day)
    (hbin : ∀ e ∈ inp.employees, ∀ sg2 ∈ e.skill_group_ids,
        ∀ day2 < inp.days, ∀ b2 < inp.ti.buckets_per_day,
        v (Var.zv e.id day2 b2 sg2) = 0 ∨ v (Var.zv e.id day2 b2 sg2) = 1)
    (hskills : ∀ e ∈ inp.employees, e.skill_group_ids.Nodup) :
    (reAggAlloc (allocationList inp v) day b sg : ℚ)
      = allocatedAt inp v day b sg := by
  have hslot : (day, b) ∈ inp.ti.iter_day_buckets := mem_iter_day_buckets.mpr ⟨hd, hb⟩
  have hslotnd := iter_day_buckets_nodup inp.ti
  -- reduce the re-aggregation to a per-employee indicator sum over ℕ
  have hnat : reAggAlloc (allocationList inp v) day b sg
      = (inp.employees.map (fun e =>
          if sg ∈ e.skill_group_ids then
            (if (1 : ℚ) / 2 ≤ v (Var.zv e.id day b sg) then 1 else 0)
          else 0)).sum := by
    unfold reAggAlloc allocationList
    rw [filter_flatMap, sum_map_flatMap]
    apply congrArg
    apply map_congr_mem
    intro e he
    rw [filter_flatMap, sum_map_flatMap]
    have hinner2 : ∀ sg0 ∈ e.skill_group_ids,
        (((inp.ti.iter_day_buckets.filterMap (fun db =>
            if (1 : ℚ) / 2 ≤ v (Var.zv e.id db.1 db.2 sg0) then
              some (⟨e.id, db.1, db.2, sg0, 1⟩ : AllocEntry)
            else none)).filter (fun a =>
              a.day_index = day ∧ a.bucket_index = b ∧ a.skill_group_id = sg)).map
          (fun a => a.work)).sum
        = if sg0 = sg then
            (if (1 : ℚ) / 2 ≤ v (Var.zv e.id day b sg0) then 1 else 0)
          else 0 := by
      intro sg0 _
      rw [sum_filterMap_filter]
      have hpt : ∀ db ∈ inp.ti.iter_day_buckets,
          (if ((1 : ℚ) / 2 ≤ v (Var.zv e.id db.1 db.2 sg0))
              ∧ (decide (db.1 = day ∧ db.2 = b ∧ sg0 = sg)) = true
           then (⟨e.id, db.1, db.2, sg0, 1⟩ : AllocEntry).work else 0)
          = if db = (day, b) then
              (if ((1 : ℚ) / 2 ≤ v (Var.zv e.id db.1 db.2 sg0)) ∧ sg0 = sg
               then 1 else 0)
            else 0 := by
        intro db _
        rcases db with ⟨d2, b2⟩
        by_cases hdb : ((d2, b2) : Nat × Nat) = (day, b)
        · have hd2 : d2 = day := congrArg Prod.fst hdb
          have hb2 : b2 = b := congrArg Prod.snd hdb
          subst hd2
          subst hb2
          rw [if_pos rfl]
          by_cases hthr : (1 : ℚ) / 2 ≤ v (Var.zv e.id d2 b2 sg0) <;>
            by_cases hsg0 : sg0 = sg <;>
            simp [hthr, hsg0]
        · rw [if_neg hdb]
          apply if_neg
          rintro ⟨-, hdec⟩
          obtain ⟨h1, h2, -⟩ := of_decide_eq_true hdec
          exact hdb (by simp only at h1 h2; rw [h1, h2])
      rw [map_congr_mem hpt, sum_map_ite_eq_mem hslotnd (day, b)
        (fun db => if ((1 : ℚ) / 2 ≤ v (Var.zv e.id db.1 db.2 sg0)) ∧ sg0 = sg
          then 1 else 0), if_pos hslot]
      by_cases hthr : (1 : ℚ) / 2 ≤ v (Var.zv e.id day b sg0) <;>
        by_cases hsg0 : sg0 = sg <;>
        simp [hthr, hsg0]
    rw [map_congr_mem hinner2, sum_map_ite_eq_mem (hskills e he) sg
      (fun sg0 => if (1 : ℚ) / 2 ≤ v (Var.zv e.id day b sg0) then 1 else 0)]
  rw [hnat]
  unfold allocatedAt
  rw [Nat.cast_list_sum, List.map_map]
  apply congrArg
  apply map_congr_mem
  intro e he
  simp only [Function.comp_apply]
  by_cases hsk : sg ∈ e.skill_group_ids
  · rw [if_pos hsk, if_pos hsk]
    rcases hbin e he sg hsk day hd b hb with h0 | h1
    · rw [h0]
      have hthr : ¬ ((1 : ℚ) / 2 ≤ (0 : ℚ)) := by norm_num
      rw [if_neg hthr]
      norm_num
    · rw [h1]
      have hthr : ((1 : ℚ) / 2 ≤ (1 : ℚ)) := by norm_num
      rw [if_pos hthr]
      norm_num
  · rw [if_neg hsk, if_neg hsk]
    norm_num

/-- Claim C3 (amended): for solver assignments whose allocation values
are exactly 0 or 1 (and duplicate-free per-employee skill sets, per the
data model), summing the thresholded sparse allocation entries on each
`(slot, skill_group)` reproduces the `allocated` field of the
corresponding coverage-table row. -/
theorem allocation_roundtrip (inp : Input) (m : Model)
    (hm : buildModel inp = .ok m) (v : Var → ℚ)
    (hbin : ∀ e ∈ inp.employees, ∀ sg2 ∈ e.skill_group_ids,
        ∀ day2 < inp.days, ∀ b2 < inp.ti.buckets_per_day,
        v (Var.zv e.id day2 b2 sg2) = 0 ∨ v (Var.zv e.id day2 b2 sg2) = 1)
    (hskills : ∀ e ∈ inp.employees, e.skill_group_ids.Nodup) :
    ∀ row ∈ coverageRows inp m v,
      (reAggAlloc (allocationList inp v) row.day_index row.bucket_index
          row.skill_group_id : ℚ) = row.allocated := by
  intro row hrow
  unfold coverageRows at hrow
  obtain ⟨db, hdb, hrow2⟩ := List.mem_flatMap.mp hrow
  obtain ⟨sg, hsg, hroweq⟩ := List.mem_map.mp hrow2
  rcases db with ⟨day, b⟩
  obtain ⟨hd, hb⟩ := mem_iter_day_buckets.mp hdb
  subst hroweq
  exact reAgg_eq_allocated inp v day b sg hd hb hbin hskills

/-- Counterexample for C3 as stated: under the (tolerance-style) solver
value `0.7` for one allocation variable, the thresholded allocation list
re-aggregates to 1, while the coverage table's `allocated` field holds
the raw sum `0.7`. -/
theorem allocation_roundtrip_cex :
    reAggAlloc (allocationList cinpC3 vC3) 0 0 "s1" = 1 ∧
    ((coverageRows cinpC3 mC3 vC3).map (fun r => r.allocated)) = [7 / 10, 0] ∧
    ((1 : ℚ) ≠ 7 / 10) := by
  refine ⟨?_, ?_, by norm_num⟩
  · exact of_decide_eq_true (by with_unfolding_all rfl)
  · with_unfolding_all rfl

/-- Witness for C3: with the exactly-binary valuation `vC3W` the
round-trip holds on the coverage row of slot `(0, 0)`, skill `"s1"`. -/
theorem allocation_roundtrip_witness :
    (reAggAlloc (allocationList cinpC3 vC3W) rowC3W.day_index rowC3W.bucket_index
        rowC3W.skill_group_id : ℚ) = rowC3W.allocated :=
  allocation_roundtrip cinpC3 mC3 rfl vC3W
    (of_decide_eq_true (by with_unfolding_all rfl))
    (by decide)
    rowC3W (of_decide_eq_true (by with_unfolding_all rfl))

end Shiftopt
